import Mathlib

/-!
Verification of the MPL compiler core (code generator `src/codegen.rs` and
execution host `src/runner.rs`) against its natural-language specification.

Shallow embedding conventions:
* Rust `u32` values are modelled as `Nat` with explicit `% 2^32` where the
  source can wrap (release-mode wrapping arithmetic); Rust `i32` values are
  modelled as `Int` (the parser only ever produces in-range literals).
* `f64` literal payloads are opaque to the generator (it only copies them into
  `f64.const` instructions), so they are modelled by an abstract payload type
  `FloatBits := Int`; no floating-point arithmetic is ever performed.
* Rust `HashMap` is modelled as an association list with keyed lookup and
  replace-or-append insertion; the source only performs keyed lookups,
  insertions and `len()` on its maps, never iteration, so lookup semantics
  coincide.
* String literals are the byte sequences the generator actually emits
  (`text.as_bytes()`), modelled as `List Nat`; identifier names stay `String`.
* Fallible generator functions return `Except ParseError _`, mirroring the
  Rust `Result<_, ParseError>`.
-/

/-- Modulus of 32-bit machine arithmetic. -/
def U32MOD : Nat := 2 ^ 32

/-- Reinterpret a `u32` value as Rust's `as i32` cast does (two's complement). -/
def i32ofU32 (n : Nat) : Int :=
  if n < 2 ^ 31 then (n : Int) else (n : Int) - (U32MOD : Int)

/-- Reinterpret an `i32` value as Rust's `as u32` cast does (two's complement). -/
def u32ofI32 (i : Int) : Nat :=
  (i % (U32MOD : Int)).toNat

/-- `align_up` from `src/codegen.rs` lines 20-28: align `x` up to the next
multiple of `align` using the mask trick `(x + a) & !a` on `u32` values
(the source comment assumes `align >= 1`, power of two in practice).
`!a` on `u32` is `2^32 - 1 - a = 2^32 - align`. -/
def align_up (x align : Nat) : Nat :=
  if align ≤ 1 then x
  else ((x + (align - 1)) % U32MOD) &&& (U32MOD - align)

/-- `align_up` from `src/runner.rs` lines 9-12: same mask trick but without the
`align <= 1` early return (only ever called with `align = 16`). -/
def runner_align_up (x align : Nat) : Nat :=
  ((x + (align - 1)) % U32MOD) &&& (U32MOD - align)

/-- Opaque payload of an `f64` literal: the generator never computes with it,
it only copies it into an `f64.const` instruction. -/
def FloatBits : Type := Int

instance : DecidableEq FloatBits := inferInstanceAs (DecidableEq Int)

/-- Source position (`src/lexer.rs` `Position`: file, line, column). -/
structure Position where
  fileName : String
  line : Nat
  col : Nat
deriving DecidableEq

/-- Scalar types of the language (`Ty` in `src/codegen.rs`). -/
inductive Ty where
  | i32
  | f64
deriving DecidableEq

/-- Binary operators (`BinOp` in `src/parser.rs`). -/
inductive BinOp where
  | add
  | sub
  | mul
  | div
deriving DecidableEq

/-- A declared local variable (`Variable` in `src/parser.rs`). -/
structure Variable where
  name : String
  ty : Ty
deriving DecidableEq

/-- Numeric expression tree (`NumExpr` in `src/parser.rs`). -/
inductive NumExpr where
  | int (i : Int)
  | float (r : FloatBits)
  | binary (op : BinOp) (left right : NumExpr)
  | var (var : Variable) (pos : Position)
  | neg (inner : NumExpr)
deriving DecidableEq

/-- Byte string of a literal (`String` contents viewed as `as_bytes()`). -/
def Bytes : Type := List Nat

instance : DecidableEq Bytes := inferInstanceAs (DecidableEq (List Nat))
instance : Append Bytes := inferInstanceAs (Append (List Nat))

/-- String expression (`StrExpr` in `src/parser.rs`). -/
inductive StrExpr where
  | str (s : Bytes)
  | numToStr (inner : NumExpr)
  | nl
deriving DecidableEq

/-- Expression (`Expr` in `src/parser.rs`). -/
inductive Expr where
  | num (e : NumExpr)
  | str (e : StrExpr)
deriving DecidableEq

/-- Statement (`Stadment` in `src/parser.rs`, keeping the source's spelling). -/
inductive Stadment where
  | print (args : List StrExpr)
  | println (args : List StrExpr)
  | call (name : String) (pos : Position)
  | assignment (var : Variable) (expr : Expr) (pos : Position)
deriving DecidableEq

/-- A source function (`Function` in `src/parser.rs`). -/
structure Function where
  name : String
  body : List Stadment
  vars : List Variable  -- `variables` in the source (a deprecated keyword in Lean 4)
deriving DecidableEq

/-- `MainProgram` in `src/parser.rs`. -/
structure MainProgram where
  imports : List String
  functions : List Function
  main : Function
deriving DecidableEq

/-- `Program` in `src/parser.rs`. -/
structure Program where
  functions : List Function
  main_program : MainProgram
deriving DecidableEq

/-- `ParseError` in `src/parser.rs`. The `lex` and `unexpected` constructors
belong to the front end (their payloads are abstracted to the data the
claims need); the code generator itself only ever constructs `generator`. -/
inductive ParseError where
  | lex (msg : String)
  | unexpected (found : String) (expected : String) (pos : Position)
  | generator (pos : Position) (msg : String)
deriving DecidableEq

/-- `find_variable_index` in `src/parser.rs`: position of the first variable
with the given name. -/
def find_variable_index (vs : List Variable) (name : String) : Option Nat :=
  vs.findIdx? (fun v => v.name == name)

/-- A placed string constant (`Blob` in `src/codegen.rs`): pointer and length
into the static data region. -/
structure Blob where
  ptr : Nat
  len : Nat
deriving DecidableEq

/-- One active data segment emitted by `DataSection::active`. -/
structure Seg where
  ptr : Nat
  bytes : Bytes
deriving DecidableEq

/-- Association-list lookup (Rust `HashMap::get`). -/
def lookupA {β : Type} (m : List (String × β)) (k : String) : Option β :=
  match m with
  | [] => none
  | (k', v) :: rest => if k' == k then some v else lookupA rest k

/-- Association-list lookup keyed by byte strings (the string interner). -/
def lookupB {β : Type} (m : List (Bytes × β)) (k : Bytes) : Option β :=
  match m with
  | [] => none
  | (k', v) :: rest => if k' = k then some v else lookupB rest k

/-- Association-list insert (Rust `HashMap::insert`): replace the binding if
the key is present, otherwise append it. -/
def insertA {β : Type} (m : List (String × β)) (k : String) (v : β) :
    List (String × β) :=
  match m with
  | [] => [(k, v)]
  | (k', v') :: rest =>
      if k' == k then (k', v) :: rest else (k', v') :: insertA rest k v

/-- Insert for the byte-string-keyed interner map. -/
def insertB {β : Type} (m : List (Bytes × β)) (k : Bytes) (v : β) :
    List (Bytes × β) :=
  match m with
  | [] => [(k, v)]
  | (k', v') :: rest =>
      if k' = k then (k', v) :: rest else (k', v') :: insertB rest k v

/-- The three `&mut` parameters of `push_text` bundled together: the
`DataSection`, the data cursor (`data_idx`) and the text interner. -/
structure PoolSt where
  data : List Seg
  cursor : Nat
  interner : List (Bytes × Blob)
deriving DecidableEq

/-- `push_text` from `src/codegen.rs` lines 34-74: insert `text` into the data
section if needed, returning its (ptr, len).  De-duplicates via the interner;
if an existing entry does not meet the requested alignment, a new copy is
emitted at a properly aligned address and the interner entry is replaced.
The cursor advance `*cursor += bytes.len()` is `u32` arithmetic. -/
def push_text (st : PoolSt) (text : Bytes) (align : Nat) : Blob × PoolSt :=
  match lookupB st.interner text with
  | some blob =>
      if align ≤ 1 ∨ blob.ptr % align = 0 then (blob, st)
      else
        let cursor1 := align_up st.cursor (max align 1)
        let ptr := cursor1
        let blob' : Blob := ⟨ptr, text.length⟩
        (blob',
          { data := st.data ++ [⟨ptr, text⟩]
            cursor := (cursor1 + text.length) % U32MOD
            interner := insertB st.interner text blob' })
  | none =>
      let cursor1 := align_up st.cursor (max align 1)
      let ptr := cursor1
      let blob' : Blob := ⟨ptr, text.length⟩
      (blob',
        { data := st.data ++ [⟨ptr, text⟩]
          cursor := (cursor1 + text.length) % U32MOD
          interner := insertB st.interner text blob' })

/-- Wasm value types (`wasm_encoder::ValType`, only the two used). -/
inductive ValType where
  | i32
  | f64
deriving DecidableEq

/-- A function type entry of the type section: parameters and results. -/
structure FuncType where
  params : List ValType
  results : List ValType
deriving DecidableEq

/-- Import descriptor (`wasm_encoder::EntityType`, only the two used):
a function with a type index, or a memory with (minimum, no maximum,
not memory64, not shared). -/
inductive ImportDesc where
  | func (tyIdx : Nat)
  | memory (minimum : Nat)
deriving DecidableEq

/-- One entry of the import section. -/
structure ImportEntry where
  module : String
  name : String
  desc : ImportDesc
deriving DecidableEq

/-- The stack-machine instructions the generator emits
(`wasm_encoder::InstructionSink` calls in `src/codegen.rs`). -/
inductive Instr where
  | i32Const (v : Int)
  | f64Const (v : FloatBits)
  | f64ConvertI32S
  | i32TruncF64S
  | f64Neg
  | i32Add
  | i32Sub
  | i32Mul
  | i32DivS
  | f64Add
  | f64Sub
  | f64Mul
  | f64Div
  | localGet (idx : Nat)
  | localSet (idx : Nat)
  | call (idx : Nat)
  | «end»
deriving DecidableEq

/-- One body of the code section: local declarations (count, type) and the
instruction sequence. -/
structure FuncBody where
  locals : List (Nat × ValType)
  instrs : List Instr
deriving DecidableEq

/-- Export kinds used by the generator. -/
inductive ExportKind where
  | func
  | global
deriving DecidableEq

/-- One mutable-global entry: (mutable flag, i32 init constant). -/
structure GlobalEntry where
  mutable : Bool
  init : Int
deriving DecidableEq

/-- The name (debug) section content the generator builds: module name,
function-name map, and per-function local-name maps. -/
structure NamesModel where
  moduleName : Option String
  funcNames : Option (List (Nat × String))
  localNames : List (Nat × List (Nat × String))
deriving DecidableEq

/-- The assembled module, one field per section, in the serialization order of
`generate_wasm` step 8.  Serializing a module to bytes is a pure function of
this structure, so structural equality entails byte-identical output. -/
structure WasmModule where
  types : List FuncType
  imports : List ImportEntry
  functions : List Nat
  globals : List GlobalEntry
  exports : List (String × ExportKind × Nat)
  code : List FuncBody
  data : List Seg
  names : NamesModel
deriving DecidableEq

/-- The `CodeGenerator` struct of `src/codegen.rs` (sections + bookkeeping).
The `DataSection`, `data_idx` cursor and `string_interner` are bundled in
`pool` (exactly the triple `push_text` receives by `&mut`). -/
structure CodeGenerator where
  types : List FuncType
  imports : List ImportEntry
  functions : List Nat
  code : List FuncBody
  pool : PoolSt
  exports : List (String × ExportKind × Nat)
  names : NamesModel
  globals : List GlobalEntry
  fn_names : List (Nat × String)
  fn_idx : Nat
  fn_map : List (String × Int)
  ty_void : Nat
deriving DecidableEq

/-- `CodeGenerator::new`. -/
def CodeGenerator.new : CodeGenerator :=
  { types := []
    imports := []
    functions := []
    code := []
    pool := { data := [], cursor := 0, interner := [] }
    exports := []
    names := { moduleName := none, funcNames := none, localNames := [] }
    globals := []
    fn_names := []
    fn_idx := 0
    fn_map := []
    ty_void := 0 }

/-- `CodeGenerator::declare_function`: record the function name for the name
section and map name -> index (a `HashMap` insert, silently replacing any
earlier binding of the same name). -/
def declare_function (cg : CodeGenerator) (f : Function) : CodeGenerator :=
  { cg with
    fn_names := cg.fn_names ++ [(cg.fn_idx, f.name)]
    fn_map := insertA cg.fn_map f.name (Int.ofNat cg.fn_idx)
    fn_idx := cg.fn_idx + 1 }

/-- `CodeGenerator::infer_type`: the resulting type of an expression.
Rule: if any side is F64, the result is F64; otherwise I32. -/
def infer_type : NumExpr → Ty
  | .int _ => .i32
  | .float _ => .f64
  | .binary _ left right =>
      let lt := infer_type left
      let rt := infer_type right
      if lt = .f64 ∨ rt = .f64 then .f64 else .i32
  | .var v _ => v.ty
  | .neg inner => infer_type inner

/-- The typed arithmetic instruction chosen in the `Binary` arm of
`gen_expression_as` (the `match (op, target_ty)` table). -/
def bin_instr (op : BinOp) (ty : Ty) : Instr :=
  match op, ty with
  | .add, .i32 => .i32Add
  | .sub, .i32 => .i32Sub
  | .mul, .i32 => .i32Mul
  | .div, .i32 => .i32DivS
  | .add, .f64 => .f64Add
  | .sub, .f64 => .f64Sub
  | .mul, .f64 => .f64Mul
  | .div, .f64 => .f64Div

/-- `CodeGenerator::gen_expression_as`: emit `expr` as `target` type,
inserting implicit casts as needed.  The Rust function appends instructions
to an `InstructionSink`; the model returns the appended instruction list. -/
def gen_expression_as (expr : NumExpr) (target : Ty) (f : Function) :
    Except ParseError (List Instr) :=
  match expr with
  | .neg inner =>
      match target with
      | .f64 => do
          let inner' ← gen_expression_as inner .f64 f
          pure (inner' ++ [.f64Neg])
      | .i32 => do
          let inner' ← gen_expression_as inner .i32 f
          pure ([.i32Const 0] ++ inner' ++ [.i32Sub])
  | .int i =>
      if target = .f64 then pure [.i32Const i, .f64ConvertI32S]
      else pure [.i32Const i]
  | .float r =>
      match target with
      | .f64 => pure [.f64Const r]
      | .i32 => pure [.f64Const r, .i32TruncF64S]
  | .binary op left right => do
      let target_ty := target
      let l ← gen_expression_as left target_ty f
      let r ← gen_expression_as right target_ty f
      pure (l ++ r ++ [bin_instr op target_ty])
  | .var v pos =>
      match find_variable_index f.vars v.name with
      | none => .error (.generator pos s!"unknown variable \x27{v.name}\x27")
      | some idx =>
          match v.ty with
          | .i32 =>
              if target = .f64 then pure [.localGet idx, .f64ConvertI32S]
              else pure [.localGet idx]
          | .f64 =>
              if target = .i32 then pure [.localGet idx, .i32TruncF64S]
              else pure [.localGet idx]

/-- `CodeGenerator::gen_expression`: generate code and return the resulting
type (the target is the expression's own inferred type). -/
def gen_expression (expr : NumExpr) (f : Function) :
    Except ParseError (List Instr × Ty) := do
  let target := infer_type expr
  let instrs ← gen_expression_as expr target f
  pure (instrs, target)

/-- `self.fn_map["name"] as u32`: a Rust `HashMap` index panics when the key
is missing; within `generate_wasm` the keys consulted ("log", "to_str_i32",
"to_str_f64", "concat", and every declared function name) are always inserted
before use, so the `getD 0` default is never consulted there. -/
def fn_map_index (cg : CodeGenerator) (name : String) : Nat :=
  u32ofI32 ((lookupA cg.fn_map name).getD 0)

/-- The two constants a caller pushes after receiving a `Blob`
(`instr.i32_const(blob.ptr as i32).i32_const(blob.len as i32)`). -/
def blob_consts (b : Blob) : List Instr :=
  [.i32Const (i32ofU32 b.ptr), .i32Const (i32ofU32 b.len)]

/-- `CodeGenerator::gen_str_expression`: a literal or the newline constant is
interned into the data section (alignment 16) and returned as a `Blob`; a
numeric-to-string conversion emits the numeric expression followed by a call
to the matching `to_str` import and returns no `Blob`. -/
def gen_str_expression (cg : CodeGenerator) (e : StrExpr) (f : Function) :
    Except ParseError (Option Blob × List Instr × CodeGenerator) :=
  match e with
  | .str s =>
      let (blob, pool') := push_text cg.pool s 16
      pure (some blob, [], { cg with pool := pool' })
  | .nl =>
      let (blob, pool') := push_text cg.pool [10] 16
      pure (some blob, [], { cg with pool := pool' })
  | .numToStr inner => do
      let (instrs, ty) ← gen_expression inner f
      match ty with
      | .i32 => pure (none, instrs ++ [.call (fn_map_index cg "to_str_i32")], cg)
      | .f64 => pure (none, instrs ++ [.call (fn_map_index cg "to_str_f64")], cg)

/-- Instructions pushed for an element's `Blob`, when there is one. -/
def opt_blob_consts : Option Blob → List Instr
  | some b => blob_consts b
  | none => []

/-- The `for e in rest` loop of `gen_print`: each further element is lowered,
its (ptr, len) pushed when it is a literal, then `concat` is called to fold
it into the running pair. -/
def gen_print_rest (cg : CodeGenerator) (es : List StrExpr) (f : Function) :
    Except ParseError (List Instr × CodeGenerator) :=
  match es with
  | [] => pure ([], cg)
  | e :: rest => do
      let (blobOpt, i1, cg1) ← gen_str_expression cg e f
      let here := i1 ++ opt_blob_consts blobOpt ++ [.call (fn_map_index cg1 "concat")]
      let (ir, cg2) ← gen_print_rest cg1 rest f
      pure (here ++ ir, cg2)

/-- The three slice-pattern arms of `gen_print`'s `match str_expr.as_slice()`
block: build one running (ptr, len) pair from the element list. -/
def gen_print_args (cg : CodeGenerator) (str_expr : List StrExpr)
    (f : Function) : Except ParseError (List Instr × CodeGenerator) :=
  match str_expr with
  | [] => pure ([], cg)
  | [only] => do
      let (blobOpt, i1, cg1) ← gen_str_expression cg only f
      pure (i1 ++ opt_blob_consts blobOpt, cg1)
  | first :: rest => do
      let (blobOpt, i1, cg1) ← gen_str_expression cg first f
      let (ir, cg2) ← gen_print_rest cg1 rest f
      pure (i1 ++ opt_blob_consts blobOpt ++ ir, cg2)

/-- `CodeGenerator::gen_print`: build one (ptr, len) pair from the element
list (`gen_print_args`), append a newline via `concat` when `nl` is set,
then call `env.log`. -/
def gen_print (cg : CodeGenerator) (str_expr : List StrExpr) (f : Function)
    (nl : Bool) : Except ParseError (List Instr × CodeGenerator) := do
  let (instrs0, cg0) ← gen_print_args cg str_expr f
  let (instrs1, cg1) :=
    if nl then
      let (nl_blob, pool') := push_text cg0.pool [10] 16
      let cgA := { cg0 with pool := pool' }
      (instrs0 ++ blob_consts nl_blob ++ [.call (fn_map_index cgA "concat")], cgA)
    else (instrs0, cg0)
  pure (instrs1 ++ [.call (fn_map_index cg1 "log")], cg1)

/-- Wasm value type of a scalar type. -/
def val_type_of : Ty → ValType
  | .i32 => .i32
  | .f64 => .f64

/-- `CodeGenerator::gen_variables`: each declared variable becomes one local
(1, type) group; local indices start after the parameters; the per-function
local names are appended to the name section. -/
def gen_variables (cg : CodeGenerator) (vs : List Variable) (fn_id : Nat)
    (param_count : Nat) : List (Nat × ValType) × CodeGenerator :=
  let locals := vs.map (fun v => (1, val_type_of v.ty))
  let fn_locals := vs.enum.map (fun p => (param_count + p.1, p.2.name))
  (locals,
    { cg with names :=
        { cg.names with localNames := cg.names.localNames ++ [(fn_id, fn_locals)] } })

/-- One statement of `gen_function`'s body loop. -/
def gen_stadment (cg : CodeGenerator) (s : Stadment) (f : Function) :
    Except ParseError (List Instr × CodeGenerator) :=
  match s with
  | .print str_expr => gen_print cg str_expr f false
  | .println str_expr => gen_print cg str_expr f true
  | .call name pos =>
      match lookupA cg.fn_map name with
      | some fid => pure ([.call (u32ofI32 fid)], cg)
      | none => .error (.generator pos s!"unknown function \x27{name}\x27")
  | .assignment v e pos => do
      let instrs1 ←
        (match e with
        | .num num_expr => gen_expression_as num_expr v.ty f
        | _ => .error (.generator pos
            "only numeric expressions are supported in assignments") :
          Except ParseError (List Instr))
      match find_variable_index f.vars v.name with
      | some idx => pure (instrs1 ++ [.localSet idx], cg)
      | none => .error (.generator pos s!"unknown variable \x27{v.name}\x27")

/-- The statement loop of `gen_function`. -/
def gen_body (cg : CodeGenerator) (stmts : List Stadment) (f : Function) :
    Except ParseError (List Instr × CodeGenerator) :=
  match stmts with
  | [] => pure ([], cg)
  | s :: rest => do
      let (i1, cg1) ← gen_stadment cg s f
      let (ir, cg2) ← gen_body cg1 rest f
      pure (i1 ++ ir, cg2)

/-- `CodeGenerator::gen_function`: allocate the function-table slot, build the
local table, lower the statement list, append `end`, and push the body. -/
def gen_function (cg : CodeGenerator) (f : Function) :
    Except ParseError CodeGenerator := do
  let cg1 := { cg with functions := cg.functions ++ [cg.ty_void] }
  let fn_id := fn_map_index cg1 f.name
  let param_count := 0
  let (locals, cg2) := gen_variables cg1 f.vars fn_id param_count
  let (instrs, cg3) ← gen_body cg2 f.body f
  pure { cg3 with code := cg3.code ++ [FuncBody.mk locals (instrs ++ [.«end»])] }

/-- `CodeGenerator::push_imported_function`: append the signature to the type
section, import the function, and assign it the next function index. -/
def push_imported_function (cg : CodeGenerator) (module name : String)
    (params results : List ValType) : CodeGenerator :=
  let fn_type := cg.types.length
  { cg with
    types := cg.types ++ [⟨params, results⟩]
    imports := cg.imports ++ [⟨module, name, .func fn_type⟩]
    fn_names := cg.fn_names ++ [(cg.fn_idx, name)]
    fn_map := insertA cg.fn_map name (Int.ofNat cg.fn_idx)
    fn_idx := cg.fn_idx + 1 }

/-- The body-generation loops of `generate_wasm` step 5. -/
def gen_functions (cg : CodeGenerator) (fs : List Function) :
    Except ParseError CodeGenerator :=
  match fs with
  | [] => pure cg
  | f :: rest => do
      let cg1 ← gen_function cg f
      gen_functions cg1 rest

/-- `CodeGenerator::generate_wasm`: the eight numbered steps of the source in
order — module name, the `()->()` type, the four function imports and the
memory import, function declarations (library, program, entry), the function
name section, body generation, the `main` export at `fn_map.len() - 1`, the
16-aligned `heap_ptr` global and its export, and final section assembly. -/
def generate_wasm (cg0 : CodeGenerator) (prog_name : String) (prog : Program) :
    Except ParseError WasmModule := do
  let cg := { cg0 with names := { cg0.names with moduleName := some prog_name } }
  let cg := { cg with types := cg.types ++ [⟨[], []⟩], ty_void := 0 }
  let cg := push_imported_function cg "env" "log" [.i32, .i32] []
  let cg := push_imported_function cg "str" "to_str_i32" [.i32] [.i32, .i32]
  let cg := push_imported_function cg "str" "to_str_f64" [.f64] [.i32, .i32]
  let cg := push_imported_function cg "str" "concat" [.i32, .i32, .i32, .i32]
      [.i32, .i32]
  let cg := { cg with imports := cg.imports ++ [⟨"env", "memory", .memory 1⟩] }
  let cg := prog.functions.foldl declare_function cg
  let cg := prog.main_program.functions.foldl declare_function cg
  let cg := declare_function cg prog.main_program.main
  let cg := { cg with names := { cg.names with funcNames := some cg.fn_names } }
  let cg ← gen_functions cg prog.functions
  let cg ← gen_functions cg prog.main_program.functions
  let cg ← gen_function cg prog.main_program.main
  let cg := { cg with exports :=
      cg.exports ++ [("main", ExportKind.func, cg.fn_map.length - 1)] }
  let heap_start := align_up cg.pool.cursor 16
  let cg := { cg with globals := cg.globals ++ [GlobalEntry.mk true (i32ofU32 heap_start)] }
  let cg := { cg with exports :=
      cg.exports ++ [("heap_ptr", ExportKind.global, 0)] }
  pure { types := cg.types
         imports := cg.imports
         functions := cg.functions
         globals := cg.globals
         exports := cg.exports
         code := cg.code
         data := cg.pool.data
         names := cg.names }

/-!  Execution host (`src/runner.rs`).

`run_wasm_bytes` binds one imported linear memory and three host closures,
instantiates the module, stashes the exported `heap_ptr` global for the
closures, and calls the exported `main`.  The definitions below model the
(module, name) pairs the linker defines, the host closures' observable
behavior, and a small-step executor for the straight-line instruction
sequences the generator emits (enough to run generated `main` bodies that do
not use floating point or user-to-user calls).  -/

/-- The (module, name) pairs `run_wasm_bytes` registers with the linker, in
source order: `env.memory`, `env.log`, `str.to_str`, `str.concat`. -/
def runner_host_defs : List (String × String) :=
  [("env", "memory"), ("env", "log"), ("str", "to_str"), ("str", "concat")]

/-- Instantiation resolves all imports: every import of the module has a
matching host-side definition. -/
def import_resolves (m : WasmModule) : Prop :=
  ∀ imp ∈ m.imports, (imp.module, imp.name) ∈ runner_host_defs

instance (m : WasmModule) : Decidable (import_resolves m) :=
  inferInstanceAs (Decidable (∀ imp ∈ m.imports, (imp.module, imp.name) ∈ runner_host_defs))

/-- `read_slice` of `src/runner.rs`: read `len` bytes of guest memory at
`ptr` (memory modelled as a total byte map). -/
def read_slice (mem : Nat → Nat) (ptr len : Nat) : List Nat :=
  (List.range len).map (fun i => mem (ptr + i))

/-- `write_slice` of `src/runner.rs`: write `data` into guest memory at
`ptr`. -/
def write_slice (mem : Nat → Nat) (ptr : Nat) (data : List Nat) :
    Nat → Nat :=
  fun a => if ptr ≤ a ∧ a < ptr + data.length then data.getD (a - ptr) 0 else mem a

/-- Wrap an integer into signed 32-bit range (wasm `i32` arithmetic). -/
def wrap_i32 (n : Int) : Int :=
  (n + 2 ^ 31) % (U32MOD : Int) - 2 ^ 31

/-- Decimal byte string of an `i32`, as Rust's `n.to_string()` produces
(ASCII digits with a leading `-` for negatives); Lean's `toString` on `Int`
agrees for all `i32`-range values. -/
def int_dec_bytes (n : Int) : List Nat :=
  (toString n).toList.map Char.toNat

/-- One bump allocation of the runner's host closures (`str.to_str` and
`str.concat` share this shape): the returned pointer is the current heap
cursor, and the cursor advances to `align_up(ptr + len, 16)` (u32
arithmetic).  Returns (ptr, new heap cursor). -/
def host_alloc (heap len : Nat) : Nat × Nat :=
  (heap, runner_align_up ((heap + len) % U32MOD) 16)

/-- A sequence of host allocations: the pointers handed out and the final
heap cursor. -/
def host_allocs (heap : Nat) : List Nat → List Nat × Nat
  | [] => ([], heap)
  | len :: rest =>
      let (ptr, heap') := host_alloc heap len
      let (ptrs, heapF) := host_allocs heap' rest
      (ptr :: ptrs, heapF)

/-- Guest execution state: value stack (head = top), function locals, linear
memory, the `heap_ptr` global's current value, and the bytes written to the
host's standard output so far. -/
structure ExecSt where
  stack : List Int
  locals : List Int
  mem : Nat → Nat
  heap : Nat
  out : List Nat

/-- Executor for the straight-line bodies the generator emits, with the host
closures of `src/runner.rs` bound at the import indices the generator
assigns (0 = `env.log`, 1 = `str.to_str_i32`, 3 = `str.concat`).

Host semantics modelled bug-for-bug from the source:
* `env.log` reads `len` bytes at `ptr` and prints them with `println!`,
  which appends one newline byte after the payload;
* `str.to_str_i32` formats the integer, bump-allocates, 16-aligns the cursor;
* `str.concat` copies both ranges contiguously at the cursor, then
  advances/aligns it.

Unmodelled behavior returns `none`: floating-point instructions and
`str.to_str_f64` (real `f64` semantics), traps (`i32.div_s` by zero or
overflow), and calls to non-import function indices. -/
def exec_instrs : List Instr → ExecSt → Option ExecSt
  | [], st => some st
  | instr :: rest, st =>
      match instr, st.stack with
      | .i32Const v, s => exec_instrs rest { st with stack := v :: s }
      | .i32Add, b :: a :: s =>
          exec_instrs rest { st with stack := wrap_i32 (a + b) :: s }
      | .i32Sub, b :: a :: s =>
          exec_instrs rest { st with stack := wrap_i32 (a - b) :: s }
      | .i32Mul, b :: a :: s =>
          exec_instrs rest { st with stack := wrap_i32 (a * b) :: s }
      | .i32DivS, b :: a :: s =>
          if b = 0 ∨ (a = -(2 ^ 31) ∧ b = -1) then none
          else exec_instrs rest { st with stack := Int.tdiv a b :: s }
      | .localGet i, s =>
          exec_instrs rest { st with stack := st.locals.getD i 0 :: s }
      | .localSet i, v :: s =>
          exec_instrs rest { st with stack := s, locals := st.locals.set i v }
      | .call 0, len :: ptr :: s =>
          let bytes := read_slice st.mem (u32ofI32 ptr) (u32ofI32 len)
          exec_instrs rest { st with stack := s, out := st.out ++ bytes ++ [10] }
      | .call 1, n :: s =>
          let bytes := int_dec_bytes n
          let (ptr, heap') := host_alloc st.heap bytes.length
          exec_instrs rest
            { st with
              stack := Int.ofNat bytes.length :: i32ofU32 ptr :: s
              mem := write_slice st.mem ptr bytes
              heap := heap' }
      | .call 3, l2 :: p2 :: l1 :: p1 :: s =>
          let b1 := read_slice st.mem (u32ofI32 p1) (u32ofI32 l1)
          let b2 := read_slice st.mem (u32ofI32 p2) (u32ofI32 l2)
          let ptr := st.heap
          let mem' := write_slice (write_slice st.mem ptr b1) (ptr + b1.length) b2
          let total := b1.length + b2.length
          let heap' := runner_align_up ((ptr + total) % U32MOD) 16
          exec_instrs rest
            { st with
              stack := Int.ofNat total :: i32ofU32 ptr :: s
              mem := mem'
              heap := heap' }
      | .«end», _ => exec_instrs rest st
      | _, _ => none

/-- The initial guest memory: all zero, then the module's active data
segments written in order. -/
def init_mem (segs : List Seg) : Nat → Nat :=
  segs.foldl (fun m s => write_slice m s.ptr s.bytes) (fun _ => 0)

/-- The `heap_ptr` value the runner fetches after instantiation: the init
constant of the module's global at index 0, reinterpreted as `u32`. -/
def heap_init (m : WasmModule) : Nat :=
  u32ofI32 ((m.globals.headD ⟨true, 0⟩).init)

/-- Execution state at the entry of `main`: empty stack, zeroed locals,
data-initialized memory, `heap_ptr` from the exported global, nothing
printed yet. -/
def init_exec (m : WasmModule) (nlocals : Nat) : ExecSt :=
  { stack := [], locals := List.replicate nlocals 0
    mem := init_mem m.data, heap := heap_init m, out := [] }

/-- The instruction sequence of the entry function's body: the entry function
is generated last, so its body is the last entry of the code section. -/
def entry_body (m : WasmModule) : List Instr :=
  (m.code.getLastD ⟨[], []⟩).instrs

/-!  Arithmetic facts about the `(x + a) & !a` alignment trick.  -/

/-- Masking off the low `k` bits of a 32-bit value rounds it down to a
multiple of `2^k`. -/
theorem land_mask (y k : Nat) (hy : y < 2 ^ 32) (hk : k ≤ 32) :
    y &&& (2 ^ 32 - 2 ^ k) = 2 ^ k * (y / 2 ^ k) := by
  have hmask : (2 : Nat) ^ 32 - 2 ^ k = (2 ^ (32 - k) - 1) <<< k := by
    rw [Nat.shiftLeft_eq, Nat.sub_mul, one_mul, ← Nat.pow_add]
    congr 2
    omega
  have hrhs : 2 ^ k * (y / 2 ^ k) = (y >>> k) <<< k := by
    rw [Nat.shiftLeft_eq, Nat.shiftRight_eq_div_pow, Nat.mul_comm]
  rw [hmask, hrhs]
  apply Nat.eq_of_testBit_eq
  intro i
  rw [Nat.testBit_land, Nat.testBit_shiftLeft, Nat.testBit_shiftLeft]
  by_cases hik : k ≤ i
  · have hki : k + (i - k) = i := by omega
    by_cases hi32 : i < 32
    · have hlt : i - k < 32 - k := by omega
      simp [hik, Nat.testBit_shiftRight, hki, hlt]
    · have hyi : y.testBit i = false :=
        Nat.testBit_lt_two_pow
          (lt_of_lt_of_le hy (Nat.pow_le_pow_right (by norm_num) (by omega)))
      simp [hik, Nat.testBit_shiftRight, hki, hyi]
  · simp [hik]

/-- `align_up x 16` is exact rounding up when no `u32` overflow occurs. -/
theorem align_up_16 (x : Nat) (hx : x + 15 < 2 ^ 32) :
    align_up x 16 = 16 * ((x + 15) / 16) := by
  have h16 : ¬ (16 : Nat) ≤ 1 := by norm_num
  have hmod : (x + 15) % U32MOD = x + 15 := Nat.mod_eq_of_lt hx
  have hmask := land_mask (x + 15) 4 hx (by norm_num)
  simp only [align_up, h16, if_false, U32MOD] at hmod ⊢
  rw [hmod]
  norm_num at hmask ⊢
  exact hmask

/-- `align_up x 16` is a multiple of 16 (no overflow). -/
theorem align_up_16_mod (x : Nat) (hx : x + 15 < 2 ^ 32) :
    align_up x 16 % 16 = 0 := by
  rw [align_up_16 x hx]
  simp [Nat.mul_mod_right]

/-- `align_up x 16` does not round down (no overflow). -/
theorem le_align_up_16 (x : Nat) (hx : x + 15 < 2 ^ 32) :
    x ≤ align_up x 16 := by
  rw [align_up_16 x hx]
  have h := Nat.div_add_mod (x + 15) 16
  have hlt : (x + 15) % 16 < 16 := Nat.mod_lt _ (by norm_num)
  omega

/-- `align_up x 16` adds at most 15 (no overflow). -/
theorem align_up_16_le (x : Nat) (hx : x + 15 < 2 ^ 32) :
    align_up x 16 ≤ x + 15 := by
  rw [align_up_16 x hx]
  have h := Nat.div_add_mod (x + 15) 16
  omega

/-- Exact rounding up for any power-of-two alignment `2^k`, `1 ≤ k ≤ 32`,
absent `u32` overflow. -/
theorem align_up_pow2 (x k : Nat) (hk1 : 1 ≤ k) (hk : k ≤ 32)
    (hx : x + 2 ^ k ≤ 2 ^ 32) :
    align_up x (2 ^ k) = 2 ^ k * ((x + (2 ^ k - 1)) / 2 ^ k) := by
  have hk2 : (2 : Nat) ≤ 2 ^ k := by
    calc (2 : Nat) = 2 ^ 1 := by norm_num
    _ ≤ 2 ^ k := Nat.pow_le_pow_right (by norm_num) hk1
  have hcond : ¬ (2 ^ k ≤ 1) := by omega
  have h1 : (1 : Nat) ≤ 2 ^ k := by omega
  have hlt : x + (2 ^ k - 1) < 2 ^ 32 := by omega
  have hmod : (x + (2 ^ k - 1)) % 2 ^ 32 = x + (2 ^ k - 1) :=
    Nat.mod_eq_of_lt hlt
  have hmask := land_mask (x + (2 ^ k - 1)) k hlt hk
  simp only [align_up, hcond, if_false, U32MOD]
  rw [hmod]
  exact hmask

/-- The runner's `align_up` agrees with the generator's at alignment 16. -/
theorem runner_align_up_16 (x : Nat) :
    runner_align_up x 16 = align_up x 16 := by
  simp [runner_align_up, align_up]

/-!  Traversal invariants of the generator.

`Preserved cg cg'` lists the `CodeGenerator` fields that body generation
(`gen_function` and everything below it) never writes; `PoolInv` is the data
region invariant (every emitted segment ends at or before the cursor); the
`*_budget` functions bound how far a construct can advance the data cursor,
which yields the no-`u32`-overflow side conditions. -/

/-- Fields of the generator state untouched by body generation. -/
def Preserved (cg cg' : CodeGenerator) : Prop :=
  cg'.imports = cg.imports ∧ cg'.types = cg.types ∧ cg'.fn_map = cg.fn_map ∧
  cg'.fn_names = cg.fn_names ∧ cg'.fn_idx = cg.fn_idx ∧
  cg'.exports = cg.exports ∧ cg'.globals = cg.globals ∧
  cg'.ty_void = cg.ty_void ∧ cg'.names.funcNames = cg.names.funcNames

theorem Preserved_refl (cg : CodeGenerator) : Preserved cg cg := by
  simp [Preserved]

theorem Preserved_trans {a b c : CodeGenerator}
    (h1 : Preserved a b) (h2 : Preserved b c) : Preserved a c := by
  obtain ⟨i1, t1, m1, n1, x1, e1, g1, v1, f1⟩ := h1
  obtain ⟨i2, t2, m2, n2, x2, e2, g2, v2, f2⟩ := h2
  exact ⟨i2.trans i1, t2.trans t1, m2.trans m1, n2.trans n1, x2.trans x1,
    e2.trans e1, g2.trans g1, v2.trans v1, f2.trans f1⟩

/-- Every data segment ends at or before the cursor. -/
def PoolInv (p : PoolSt) : Prop :=
  ∀ seg ∈ p.data, seg.ptr + seg.bytes.length ≤ p.cursor

/-- Upper bound on the cursor advance of interning one string expression. -/
def str_budget : StrExpr → Nat
  | .str s => 15 + s.length
  | .nl => 16
  | .numToStr _ => 0

/-- Upper bound for a whole argument list. -/
def args_budget (l : List StrExpr) : Nat := (l.map str_budget).sum

/-- Upper bound for one statement. -/
def stmt_budget : Stadment → Nat
  | .print l => args_budget l
  | .println l => args_budget l + 16
  | .call _ _ => 0
  | .assignment _ _ _ => 0

/-- Upper bound for a statement list. -/
def body_budget (ss : List Stadment) : Nat := (ss.map stmt_budget).sum

/-- Upper bound for one function. -/
def fn_budget (f : Function) : Nat := body_budget f.body

/-- Upper bound for a function list. -/
def fns_budget (fs : List Function) : Nat := (fs.map fn_budget).sum

/-- Upper bound for the whole program's data region cursor. -/
def prog_budget (p : Program) : Nat :=
  fns_budget p.functions + fns_budget p.main_program.functions +
    fn_budget p.main_program.main

/-- Behaviour of one alignment-16 interning step, absent overflow: the
invariant is preserved and the cursor moves forward by at most
`15 + text.length`. -/
theorem push_text16_spec (p : PoolSt) (text : Bytes)
    (hinv : PoolInv p) (hbud : p.cursor + (15 + text.length) < 2 ^ 32) :
    PoolInv (push_text p text 16).2 ∧
    p.cursor ≤ (push_text p text 16).2.cursor ∧
    (push_text p text 16).2.cursor ≤ p.cursor + (15 + text.length) := by
  have hx : p.cursor + 15 < 2 ^ 32 := by omega
  have hmax : max 16 1 = 16 := by norm_num
  have h1 : p.cursor ≤ align_up p.cursor 16 := le_align_up_16 _ hx
  have h2 : align_up p.cursor 16 ≤ p.cursor + 15 := align_up_16_le _ hx
  have hmod : (align_up p.cursor 16 + text.length) % U32MOD
      = align_up p.cursor 16 + text.length := by
    apply Nat.mod_eq_of_lt
    simp only [U32MOD]
    omega
  have halloc : PoolInv
        (PoolSt.mk (p.data ++ [Seg.mk (align_up p.cursor 16) text])
          ((align_up p.cursor 16 + text.length) % U32MOD)
          (insertB p.interner text (Blob.mk (align_up p.cursor 16) text.length))) ∧
      p.cursor ≤ (align_up p.cursor 16 + text.length) % U32MOD ∧
      (align_up p.cursor 16 + text.length) % U32MOD
        ≤ p.cursor + (15 + text.length) := by
    rw [hmod]
    refine ⟨?_, by omega, by omega⟩
    intro seg hseg
    dsimp only at hseg ⊢
    simp only [List.mem_append, List.mem_singleton] at hseg
    rcases hseg with hseg | hseg
    · have := hinv seg hseg
      omega
    · subst hseg
      simp
  unfold push_text
  cases hl : lookupB p.interner text with
  | some blob =>
      by_cases hc : (16 : Nat) ≤ 1 ∨ blob.ptr % 16 = 0
      · simp only [hc, if_true]
        exact ⟨hinv, Nat.le.refl, by omega⟩
      · simp only [hc, if_false, hmax]
        exact halloc
  | none =>
      simp only [hmax]
      exact halloc

/-- `do`-notation reduction for `Except`: bind of a success. -/
theorem exceptOkBind {α β : Type} (a : α)
    (g : α → Except ParseError β) :
    (Except.ok a >>= g : Except ParseError β) = g a := rfl

/-- `do`-notation reduction for `Except`: bind of an error. -/
theorem exceptErrBind {α β : Type} (e : ParseError)
    (g : α → Except ParseError β) :
    ((Except.error e : Except ParseError α) >>= g) = .error e := rfl

/-- Lowering one string expression only moves the pool forward (within its
budget) and touches no other generator state. -/
theorem gen_str_expression_spec (cg : CodeGenerator) (e : StrExpr) (f : Function)
    (r : Option Blob × List Instr × CodeGenerator)
    (h : gen_str_expression cg e f = .ok r)
    (hinv : PoolInv cg.pool) (hbud : cg.pool.cursor + str_budget e < 2 ^ 32) :
    Preserved cg r.2.2 ∧ PoolInv r.2.2.pool ∧
    cg.pool.cursor ≤ r.2.2.pool.cursor ∧
    r.2.2.pool.cursor ≤ cg.pool.cursor + str_budget e := by
  cases e with
  | str s =>
      have hs := push_text16_spec cg.pool s hinv
        (by simpa [str_budget] using hbud)
      cases hpt : push_text cg.pool s 16 with
      | mk blob pool' =>
          rw [hpt] at hs
          simp only [gen_str_expression, hpt, pure, Except.pure,
            Except.ok.injEq] at h
          subst h
          exact ⟨by simp [Preserved], hs.1, hs.2.1,
            by simpa [str_budget] using hs.2.2⟩
  | nl =>
      have hs := push_text16_spec cg.pool [10] hinv
        (by simpa [str_budget] using hbud)
      cases hpt : push_text cg.pool [10] 16 with
      | mk blob pool' =>
          rw [hpt] at hs
          simp only [gen_str_expression, hpt, pure, Except.pure,
            Except.ok.injEq] at h
          subst h
          exact ⟨by simp [Preserved], hs.1, hs.2.1,
            by simpa [str_budget] using hs.2.2⟩
  | numToStr inner =>
      simp only [gen_str_expression] at h
      cases hg : gen_expression inner f with
      | error e0 =>
          rw [hg] at h
          simp only [exceptErrBind] at h
          exact Except.noConfusion h
      | ok p0 =>
          rw [hg] at h
          obtain ⟨instrs, ty⟩ := p0
          simp only [exceptOkBind] at h
          cases ty <;>
            (dsimp only at h
             injection h with h
             subst h
             exact ⟨Preserved_refl cg, hinv, Nat.le.refl, by simp [str_budget]⟩)


/-- `args_budget` unfolding for a cons cell. -/
theorem args_budget_cons (e : StrExpr) (rest : List StrExpr) :
    args_budget (e :: rest) = str_budget e + args_budget rest := by
  simp [args_budget]

/-- The concat loop over the remaining print arguments stays within the
argument list's budget and touches only the pool. -/
theorem gen_print_rest_spec (es : List StrExpr) :
    ∀ (cg : CodeGenerator) (f : Function) (r : List Instr × CodeGenerator),
    gen_print_rest cg es f = .ok r → PoolInv cg.pool →
    cg.pool.cursor + args_budget es < 2 ^ 32 →
    Preserved cg r.2 ∧ PoolInv r.2.pool ∧ cg.pool.cursor ≤ r.2.pool.cursor ∧
    r.2.pool.cursor ≤ cg.pool.cursor + args_budget es := by
  induction es with
  | nil =>
      intro cg f r h hinv hbud
      simp only [gen_print_rest, pure, Except.pure, Except.ok.injEq] at h
      subst h
      exact ⟨Preserved_refl cg, hinv, Nat.le.refl, by simp [args_budget]⟩
  | cons e rest ih =>
      intro cg f r h hinv hbud
      rw [args_budget_cons] at hbud
      simp only [gen_print_rest] at h
      cases hse : gen_str_expression cg e f with
      | error e0 =>
          rw [hse] at h
          simp only [exceptErrBind] at h
          exact Except.noConfusion h
      | ok t =>
          rw [hse] at h
          simp only [exceptOkBind] at h
          obtain ⟨bo, i1, cg1⟩ := t
          try dsimp only at h
          have h1 := gen_str_expression_spec cg e f (bo, i1, cg1) hse hinv
            (by omega)
          dsimp only at h1
          cases hrest : gen_print_rest cg1 rest f with
          | error e0 =>
              rw [hrest] at h
              simp only [exceptErrBind] at h
              exact Except.noConfusion h
          | ok r2 =>
              rw [hrest] at h
              simp only [exceptOkBind] at h
              obtain ⟨ir, cg2⟩ := r2
              dsimp only at h
              injection h with h
              subst h
              have h2 := ih cg1 f (ir, cg2) hrest h1.2.1 (by omega)
              dsimp only at h2 ⊢
              refine ⟨Preserved_trans h1.1 h2.1, h2.2.1, ?_, ?_⟩ <;>
                (try rw [args_budget_cons]) <;> omega

/-- The argument-folding stage of `gen_print` stays within the argument
list's budget and touches only the pool. -/
theorem gen_print_args_spec (cg : CodeGenerator) (l : List StrExpr)
    (f : Function) (r0 : List Instr × CodeGenerator)
    (h : gen_print_args cg l f = .ok r0) (hinv : PoolInv cg.pool)
    (hbud : cg.pool.cursor + args_budget l < 2 ^ 32) :
    Preserved cg r0.2 ∧ PoolInv r0.2.pool ∧
    cg.pool.cursor ≤ r0.2.pool.cursor ∧
    r0.2.pool.cursor ≤ cg.pool.cursor + args_budget l := by
  match l with
  | [] =>
      simp only [gen_print_args, pure, Except.pure, Except.ok.injEq] at h
      subst h
      exact ⟨Preserved_refl cg, hinv, Nat.le.refl, by simp [args_budget]⟩
  | [only] =>
      simp only [gen_print_args] at h
      cases hse : gen_str_expression cg only f with
      | error e0 =>
          rw [hse] at h
          simp only [exceptErrBind] at h
          exact Except.noConfusion h
      | ok t =>
          rw [hse] at h
          simp only [exceptOkBind] at h
          obtain ⟨bo, i1, cg1⟩ := t
          try dsimp only at h
          injection h with h
          subst h
          have h1 := gen_str_expression_spec cg only f (bo, i1, cg1) hse hinv
            (by rw [args_budget_cons] at hbud; omega)
          dsimp only at h1 ⊢
          have hz : args_budget ([] : List StrExpr) = 0 := by simp [args_budget]
          rw [args_budget_cons, hz]
          exact ⟨h1.1, h1.2.1, h1.2.2.1, by omega⟩
  | first :: second :: rest =>
      simp only [gen_print_args] at h
      rw [args_budget_cons] at hbud
      cases hse : gen_str_expression cg first f with
      | error e0 =>
          rw [hse] at h
          simp only [exceptErrBind] at h
          exact Except.noConfusion h
      | ok t =>
          rw [hse] at h
          simp only [exceptOkBind] at h
          obtain ⟨bo, i1, cg1⟩ := t
          try dsimp only at h
          have h1 := gen_str_expression_spec cg first f (bo, i1, cg1) hse hinv
            (by omega)
          dsimp only at h1
          cases hrest : gen_print_rest cg1 (second :: rest) f with
          | error e0 =>
              rw [hrest] at h
              simp only [exceptErrBind] at h
              exact Except.noConfusion h
          | ok r2 =>
              rw [hrest] at h
              simp only [exceptOkBind] at h
              obtain ⟨ir, cg2⟩ := r2
              dsimp only at h
              injection h with h
              subst h
              have h2 := gen_print_rest_spec (second :: rest) cg1 f (ir, cg2)
                hrest h1.2.1 (by omega)
              dsimp only at h2 ⊢
              rw [args_budget_cons]
              refine ⟨Preserved_trans h1.1 h2.1, h2.2.1, ?_, ?_⟩ <;> omega

/-- `gen_print` stays within the statement budget and touches only the
pool. -/
theorem gen_print_spec (cg : CodeGenerator) (l : List StrExpr) (f : Function)
    (nl : Bool) (r : List Instr × CodeGenerator)
    (h : gen_print cg l f nl = .ok r) (hinv : PoolInv cg.pool)
    (hbud : cg.pool.cursor + (args_budget l + (if nl then 16 else 0)) < 2 ^ 32) :
    Preserved cg r.2 ∧ PoolInv r.2.pool ∧ cg.pool.cursor ≤ r.2.pool.cursor ∧
    r.2.pool.cursor ≤ cg.pool.cursor + (args_budget l + (if nl then 16 else 0)) := by
  simp only [gen_print] at h
  cases hst : gen_print_args cg l f with
  | error e0 =>
      rw [hst] at h
      simp only [exceptErrBind] at h
      exact Except.noConfusion h
  | ok r0 =>
      rw [hst] at h
      simp only [exceptOkBind] at h
      obtain ⟨instrs0, cg0⟩ := r0
      have h0 := gen_print_args_spec cg l f (instrs0, cg0) hst hinv
        (by cases nl <;> simp at hbud <;> omega)
      dsimp only at h0
      cases nl with
      | false =>
          dsimp only at h
          rw [if_neg (by simp)] at h
          injection h with h
          subst h
          simp only [if_neg (Bool.false_ne_true)]
          exact ⟨h0.1, h0.2.1, by omega, by omega⟩
      | true =>
          have hbud' : cg.pool.cursor + (args_budget l + 16) < 2 ^ 32 := by
            simpa using hbud
          have hs := push_text16_spec cg0.pool [10] h0.2.1
            (by simp only [List.length_cons, List.length_nil]; omega)
          cases hpt : push_text cg0.pool [10] 16 with
          | mk nlb pool' =>
              rw [hpt] at hs
              dsimp only at h
              rw [if_pos rfl, hpt] at h
              dsimp only at h
              injection h with h
              subst h
              dsimp only at hs ⊢
              rw [if_pos rfl]
              refine ⟨Preserved_trans h0.1 (by simp [Preserved]), hs.1, ?_, ?_⟩ <;>
                simp only [List.length_cons, List.length_nil] at hs <;> omega

/-- One statement stays within its budget and touches only the pool (plus
the emitted instructions). -/
theorem gen_stadment_spec (cg : CodeGenerator) (s : Stadment) (f : Function)
    (r : List Instr × CodeGenerator) (h : gen_stadment cg s f = .ok r)
    (hinv : PoolInv cg.pool) (hbud : cg.pool.cursor + stmt_budget s < 2 ^ 32) :
    Preserved cg r.2 ∧ PoolInv r.2.pool ∧ cg.pool.cursor ≤ r.2.pool.cursor ∧
    r.2.pool.cursor ≤ cg.pool.cursor + stmt_budget s := by
  cases s with
  | print l =>
      have hres := gen_print_spec cg l f false r h hinv
        (by simpa [stmt_budget] using hbud)
      simpa [stmt_budget] using hres
  | println l =>
      have hres := gen_print_spec cg l f true r h hinv
        (by simpa [stmt_budget] using hbud)
      simpa [stmt_budget] using hres
  | call name pos =>
      simp only [gen_stadment] at h
      cases hl : lookupA cg.fn_map name with
      | none =>
          rw [hl] at h
          exact Except.noConfusion h
      | some fid =>
          rw [hl] at h
          simp only [pure, Except.pure, Except.ok.injEq] at h
          subst h
          exact ⟨Preserved_refl cg, hinv, Nat.le.refl, by simp [stmt_budget]⟩
  | assignment v e pos =>
      simp only [gen_stadment] at h
      cases e with
      | num ne =>
          dsimp only at h
          cases hg : gen_expression_as ne v.ty f with
          | error e0 =>
              rw [hg] at h
              simp only [exceptErrBind] at h
              exact Except.noConfusion h
          | ok il =>
              rw [hg] at h
              simp only [exceptOkBind] at h
              cases hfi : find_variable_index f.vars v.name with
              | none =>
                  rw [hfi] at h
                  exact Except.noConfusion h
              | some idx =>
                  rw [hfi] at h
                  simp only [pure, Except.pure, Except.ok.injEq] at h
                  subst h
                  exact ⟨Preserved_refl cg, hinv, Nat.le.refl,
                    by simp [stmt_budget]⟩
      | str se =>
          dsimp only at h
          simp only [exceptErrBind] at h
          exact Except.noConfusion h

/-- `body_budget` unfolding for a cons cell. -/
theorem body_budget_cons (s : Stadment) (rest : List Stadment) :
    body_budget (s :: rest) = stmt_budget s + body_budget rest := by
  simp [body_budget]

/-- A statement list stays within its budget and touches only the pool. -/
theorem gen_body_spec (ss : List Stadment) :
    ∀ (cg : CodeGenerator) (f : Function) (r : List Instr × CodeGenerator),
    gen_body cg ss f = .ok r → PoolInv cg.pool →
    cg.pool.cursor + body_budget ss < 2 ^ 32 →
    Preserved cg r.2 ∧ PoolInv r.2.pool ∧ cg.pool.cursor ≤ r.2.pool.cursor ∧
    r.2.pool.cursor ≤ cg.pool.cursor + body_budget ss := by
  induction ss with
  | nil =>
      intro cg f r h hinv hbud
      simp only [gen_body, pure, Except.pure, Except.ok.injEq] at h
      subst h
      exact ⟨Preserved_refl cg, hinv, Nat.le.refl, by simp [body_budget]⟩
  | cons s rest ih =>
      intro cg f r h hinv hbud
      rw [body_budget_cons] at hbud
      simp only [gen_body] at h
      cases hs : gen_stadment cg s f with
      | error e0 =>
          rw [hs] at h
          simp only [exceptErrBind] at h
          exact Except.noConfusion h
      | ok t =>
          rw [hs] at h
          simp only [exceptOkBind] at h
          obtain ⟨i1, cg1⟩ := t
          try dsimp only at h
          have h1 := gen_stadment_spec cg s f (i1, cg1) hs hinv (by omega)
          dsimp only at h1
          cases hrest : gen_body cg1 rest f with
          | error e0 =>
              rw [hrest] at h
              simp only [exceptErrBind] at h
              exact Except.noConfusion h
          | ok r2 =>
              rw [hrest] at h
              simp only [exceptOkBind] at h
              obtain ⟨ir, cg2⟩ := r2
              try dsimp only at h
              injection h with h
              subst h
              have h2 := ih cg1 f (ir, cg2) hrest h1.2.1 (by omega)
              dsimp only at h2 ⊢
              refine ⟨Preserved_trans h1.1 h2.1, h2.2.1, ?_, ?_⟩ <;>
                (try rw [body_budget_cons]) <;> omega

/-- One function body generation stays within the function's budget and
preserves everything except the code, function and local-name sections and
the pool. -/
theorem gen_function_spec (cg : CodeGenerator) (f : Function)
    (cg' : CodeGenerator) (h : gen_function cg f = .ok cg')
    (hinv : PoolInv cg.pool) (hbud : cg.pool.cursor + fn_budget f < 2 ^ 32) :
    Preserved cg cg' ∧ PoolInv cg'.pool ∧ cg.pool.cursor ≤ cg'.pool.cursor ∧
    cg'.pool.cursor ≤ cg.pool.cursor + fn_budget f := by
  simp only [gen_function, gen_variables] at h
  cases hb : gen_body
      { cg with
        functions := cg.functions ++ [cg.ty_void]
        names :=
          { cg.names with localNames := cg.names.localNames ++
              [(fn_map_index { cg with functions := cg.functions ++ [cg.ty_void] }
                  f.name,
                f.vars.enum.map (fun p => (0 + p.1, p.2.name)))] } }
      f.body f with
  | error e0 =>
      rw [hb] at h
      simp only [exceptErrBind] at h
      exact Except.noConfusion h
  | ok t =>
      rw [hb] at h
      simp only [exceptOkBind] at h
      obtain ⟨instrs, cg3⟩ := t
      try dsimp only at h
      injection h with h
      subst h
      have h1 := gen_body_spec f.body _ f (instrs, cg3) hb
        (by simpa using hinv) (by simpa [fn_budget] using hbud)
      dsimp only at h1
      refine ⟨?_, by simpa using h1.2.1, by simpa [fn_budget] using h1.2.2.1,
        by simpa [fn_budget] using h1.2.2.2⟩
      refine Preserved_trans (b := { cg with
        functions := cg.functions ++ [cg.ty_void]
        names :=
          { cg.names with localNames := cg.names.localNames ++
              [(fn_map_index { cg with functions := cg.functions ++ [cg.ty_void] }
                  f.name,
                f.vars.enum.map (fun p => (0 + p.1, p.2.name)))] } })
        (by simp [Preserved]) ?_
      exact Preserved_trans h1.1 (by simp [Preserved])

/-- `fns_budget` unfolding for a cons cell. -/
theorem fns_budget_cons (f : Function) (rest : List Function) :
    fns_budget (f :: rest) = fn_budget f + fns_budget rest := by
  simp [fns_budget]

/-- A function list stays within the summed budget and preserves the same
state components. -/
theorem gen_functions_spec (fs : List Function) :
    ∀ (cg cg' : CodeGenerator), gen_functions cg fs = .ok cg' →
    PoolInv cg.pool → cg.pool.cursor + fns_budget fs < 2 ^ 32 →
    Preserved cg cg' ∧ PoolInv cg'.pool ∧ cg.pool.cursor ≤ cg'.pool.cursor ∧
    cg'.pool.cursor ≤ cg.pool.cursor + fns_budget fs := by
  induction fs with
  | nil =>
      intro cg cg' h hinv hbud
      simp only [gen_functions, pure, Except.pure, Except.ok.injEq] at h
      subst h
      exact ⟨Preserved_refl cg, hinv, Nat.le.refl, by simp [fns_budget]⟩
  | cons f rest ih =>
      intro cg cg' h hinv hbud
      rw [fns_budget_cons] at hbud
      simp only [gen_functions] at h
      cases hf : gen_function cg f with
      | error e0 =>
          rw [hf] at h
          simp only [exceptErrBind] at h
          exact Except.noConfusion h
      | ok cg1 =>
          rw [hf] at h
          simp only [exceptOkBind] at h
          have h1 := gen_function_spec cg f cg1 hf hinv (by omega)
          have h2 := ih cg1 cg' h h1.2.1 (by omega)
          refine ⟨Preserved_trans h1.1 h2.1, h2.2.1, ?_, ?_⟩ <;>
            (try rw [fns_budget_cons]) <;> omega

/-- Preservation without pool hypotheses: one string expression. -/
theorem gen_str_expression_pres (cg : CodeGenerator) (e : StrExpr)
    (f : Function) (r : Option Blob × List Instr × CodeGenerator)
    (h : gen_str_expression cg e f = .ok r) : Preserved cg r.2.2 := by
  cases e with
  | str s =>
      cases hpt : push_text cg.pool s 16 with
      | mk blob pool' =>
          simp only [gen_str_expression, hpt, pure, Except.pure,
            Except.ok.injEq] at h
          subst h
          simp [Preserved]
  | nl =>
      cases hpt : push_text cg.pool [10] 16 with
      | mk blob pool' =>
          simp only [gen_str_expression, hpt, pure, Except.pure,
            Except.ok.injEq] at h
          subst h
          simp [Preserved]
  | numToStr inner =>
      simp only [gen_str_expression] at h
      cases hg : gen_expression inner f with
      | error e0 =>
          rw [hg] at h
          simp only [exceptErrBind] at h
          exact Except.noConfusion h
      | ok p0 =>
          rw [hg] at h
          obtain ⟨instrs, ty⟩ := p0
          simp only [exceptOkBind] at h
          cases ty <;>
            (dsimp only at h
             injection h with h
             subst h
             exact Preserved_refl cg)

/-- Preservation without pool hypotheses: the concat loop. -/
theorem gen_print_rest_pres (es : List StrExpr) :
    ∀ (cg : CodeGenerator) (f : Function) (r : List Instr × CodeGenerator),
    gen_print_rest cg es f = .ok r → Preserved cg r.2 := by
  induction es with
  | nil =>
      intro cg f r h
      simp only [gen_print_rest, pure, Except.pure, Except.ok.injEq] at h
      subst h
      exact Preserved_refl cg
  | cons e rest ih =>
      intro cg f r h
      simp only [gen_print_rest] at h
      cases hse : gen_str_expression cg e f with
      | error e0 =>
          rw [hse] at h
          simp only [exceptErrBind] at h
          exact Except.noConfusion h
      | ok t =>
          rw [hse] at h
          simp only [exceptOkBind] at h
          obtain ⟨bo, i1, cg1⟩ := t
          try dsimp only at h
          have h1 := gen_str_expression_pres cg e f (bo, i1, cg1) hse
          cases hrest : gen_print_rest cg1 rest f with
          | error e0 =>
              rw [hrest] at h
              simp only [exceptErrBind] at h
              exact Except.noConfusion h
          | ok r2 =>
              rw [hrest] at h
              simp only [exceptOkBind] at h
              obtain ⟨ir, cg2⟩ := r2
              try dsimp only at h
              injection h with h
              subst h
              exact Preserved_trans h1 (ih cg1 f (ir, cg2) hrest)

/-- Preservation without pool hypotheses: the argument-folding stage. -/
theorem gen_print_args_pres (cg : CodeGenerator) (l : List StrExpr)
    (f : Function) (r0 : List Instr × CodeGenerator)
    (h : gen_print_args cg l f = .ok r0) : Preserved cg r0.2 := by
  match l with
  | [] =>
      simp only [gen_print_args, pure, Except.pure, Except.ok.injEq] at h
      subst h
      exact Preserved_refl cg
  | [only] =>
      simp only [gen_print_args] at h
      cases hse : gen_str_expression cg only f with
      | error e0 =>
          rw [hse] at h
          simp only [exceptErrBind] at h
          exact Except.noConfusion h
      | ok t =>
          rw [hse] at h
          simp only [exceptOkBind] at h
          obtain ⟨bo, i1, cg1⟩ := t
          try dsimp only at h
          injection h with h
          subst h
          exact gen_str_expression_pres cg only f (bo, i1, cg1) hse
  | first :: second :: rest =>
      simp only [gen_print_args] at h
      cases hse : gen_str_expression cg first f with
      | error e0 =>
          rw [hse] at h
          simp only [exceptErrBind] at h
          exact Except.noConfusion h
      | ok t =>
          rw [hse] at h
          simp only [exceptOkBind] at h
          obtain ⟨bo, i1, cg1⟩ := t
          try dsimp only at h
          have h1 := gen_str_expression_pres cg first f (bo, i1, cg1) hse
          cases hrest : gen_print_rest cg1 (second :: rest) f with
          | error e0 =>
              rw [hrest] at h
              simp only [exceptErrBind] at h
              exact Except.noConfusion h
          | ok r2 =>
              rw [hrest] at h
              simp only [exceptOkBind] at h
              obtain ⟨ir, cg2⟩ := r2
              try dsimp only at h
              injection h with h
              subst h
              exact Preserved_trans h1
                (gen_print_rest_pres (second :: rest) cg1 f (ir, cg2) hrest)

/-- Preservation without pool hypotheses: `gen_print`. -/
theorem gen_print_pres (cg : CodeGenerator) (l : List StrExpr) (f : Function)
    (nl : Bool) (r : List Instr × CodeGenerator)
    (h : gen_print cg l f nl = .ok r) : Preserved cg r.2 := by
  simp only [gen_print] at h
  cases hst : gen_print_args cg l f with
  | error e0 =>
      rw [hst] at h
      simp only [exceptErrBind] at h
      exact Except.noConfusion h
  | ok r0 =>
      rw [hst] at h
      simp only [exceptOkBind] at h
      obtain ⟨instrs0, cg0⟩ := r0
      have h0 := gen_print_args_pres cg l f (instrs0, cg0) hst
      cases nl with
      | false =>
          dsimp only at h
          rw [if_neg (by simp)] at h
          injection h with h
          subst h
          exact h0
      | true =>
          cases hpt : push_text cg0.pool [10] 16 with
          | mk nlb pool' =>
              dsimp only at h
              rw [if_pos rfl, hpt] at h
              dsimp only at h
              injection h with h
              subst h
              exact Preserved_trans h0 (by simp [Preserved])

/-- Preservation without pool hypotheses: one statement. -/
theorem gen_stadment_pres (cg : CodeGenerator) (s : Stadment) (f : Function)
    (r : List Instr × CodeGenerator) (h : gen_stadment cg s f = .ok r) :
    Preserved cg r.2 := by
  cases s with
  | print l => exact gen_print_pres cg l f false r h
  | println l => exact gen_print_pres cg l f true r h
  | call name pos =>
      simp only [gen_stadment] at h
      cases hl : lookupA cg.fn_map name with
      | none =>
          rw [hl] at h
          exact Except.noConfusion h
      | some fid =>
          rw [hl] at h
          simp only [pure, Except.pure, Except.ok.injEq] at h
          subst h
          exact Preserved_refl cg
  | assignment v e pos =>
      simp only [gen_stadment] at h
      cases e with
      | num ne =>
          dsimp only at h
          cases hg : gen_expression_as ne v.ty f with
          | error e0 =>
              rw [hg] at h
              simp only [exceptErrBind] at h
              exact Except.noConfusion h
          | ok il =>
              rw [hg] at h
              simp only [exceptOkBind] at h
              cases hfi : find_variable_index f.vars v.name with
              | none =>
                  rw [hfi] at h
                  exact Except.noConfusion h
              | some idx =>
                  rw [hfi] at h
                  simp only [pure, Except.pure, Except.ok.injEq] at h
                  subst h
                  exact Preserved_refl cg
      | str se =>
          dsimp only at h
          simp only [exceptErrBind] at h
          exact Except.noConfusion h

/-- Preservation without pool hypotheses: a statement list. -/
theorem gen_body_pres (ss : List Stadment) :
    ∀ (cg : CodeGenerator) (f : Function) (r : List Instr × CodeGenerator),
    gen_body cg ss f = .ok r → Preserved cg r.2 := by
  induction ss with
  | nil =>
      intro cg f r h
      simp only [gen_body, pure, Except.pure, Except.ok.injEq] at h
      subst h
      exact Preserved_refl cg
  | cons s rest ih =>
      intro cg f r h
      simp only [gen_body] at h
      cases hs : gen_stadment cg s f with
      | error e0 =>
          rw [hs] at h
          simp only [exceptErrBind] at h
          exact Except.noConfusion h
      | ok t =>
          rw [hs] at h
          simp only [exceptOkBind] at h
          obtain ⟨i1, cg1⟩ := t
          try dsimp only at h
          cases hrest : gen_body cg1 rest f with
          | error e0 =>
              rw [hrest] at h
              simp only [exceptErrBind] at h
              exact Except.noConfusion h
          | ok r2 =>
              rw [hrest] at h
              simp only [exceptOkBind] at h
              obtain ⟨ir, cg2⟩ := r2
              try dsimp only at h
              injection h with h
              subst h
              exact Preserved_trans (gen_stadment_pres cg s f (i1, cg1) hs)
                (ih cg1 f (ir, cg2) hrest)

/-- Preservation without pool hypotheses: one function. -/
theorem gen_function_pres (cg : CodeGenerator) (f : Function)
    (cg' : CodeGenerator) (h : gen_function cg f = .ok cg') :
    Preserved cg cg' := by
  simp only [gen_function, gen_variables] at h
  cases hb : gen_body
      { cg with
        functions := cg.functions ++ [cg.ty_void]
        names :=
          { cg.names with localNames := cg.names.localNames ++
              [(fn_map_index { cg with functions := cg.functions ++ [cg.ty_void] }
                  f.name,
                f.vars.enum.map (fun p => (0 + p.1, p.2.name)))] } }
      f.body f with
  | error e0 =>
      rw [hb] at h
      simp only [exceptErrBind] at h
      exact Except.noConfusion h
  | ok t =>
      rw [hb] at h
      simp only [exceptOkBind] at h
      obtain ⟨instrs, cg3⟩ := t
      try dsimp only at h
      injection h with h
      subst h
      have h1 := gen_body_pres f.body _ f (instrs, cg3) hb
      dsimp only at h1
      refine Preserved_trans (b := { cg with
        functions := cg.functions ++ [cg.ty_void]
        names :=
          { cg.names with localNames := cg.names.localNames ++
              [(fn_map_index { cg with functions := cg.functions ++ [cg.ty_void] }
                  f.name,
                f.vars.enum.map (fun p => (0 + p.1, p.2.name)))] } })
        (by simp [Preserved]) ?_
      exact Preserved_trans h1 (by simp [Preserved])

/-- Preservation without pool hypotheses: a function list. -/
theorem gen_functions_pres (fs : List Function) :
    ∀ (cg cg' : CodeGenerator), gen_functions cg fs = .ok cg' →
    Preserved cg cg' := by
  induction fs with
  | nil =>
      intro cg cg' h
      simp only [gen_functions, pure, Except.pure, Except.ok.injEq] at h
      subst h
      exact Preserved_refl cg
  | cons f rest ih =>
      intro cg cg' h
      simp only [gen_functions] at h
      cases hf : gen_function cg f with
      | error e0 =>
          rw [hf] at h
          simp only [exceptErrBind] at h
          exact Except.noConfusion h
      | ok cg1 =>
          rw [hf] at h
          simp only [exceptOkBind] at h
          exact Preserved_trans (gen_function_pres cg f cg1 hf) (ih cg1 cg' h)

/-- Step 8 of `generate_wasm`: assemble the module record from the section
builders, in serialization order. -/
def assemble (cg : CodeGenerator) : WasmModule :=
  { types := cg.types
    imports := cg.imports
    functions := cg.functions
    globals := cg.globals
    exports := cg.exports
    code := cg.code
    data := cg.pool.data
    names := cg.names }

/-- Steps 1-2 of `generate_wasm`: module name, `()->()` type, the four
function imports and the memory import. -/
def import_phase (cg0 : CodeGenerator) (prog_name : String) : CodeGenerator :=
  let cg := { cg0 with names := { cg0.names with moduleName := some prog_name } }
  let cg := { cg with types := cg.types ++ [⟨[], []⟩], ty_void := 0 }
  let cg := push_imported_function cg "env" "log" [.i32, .i32] []
  let cg := push_imported_function cg "str" "to_str_i32" [.i32] [.i32, .i32]
  let cg := push_imported_function cg "str" "to_str_f64" [.f64] [.i32, .i32]
  let cg := push_imported_function cg "str" "concat" [.i32, .i32, .i32, .i32]
      [.i32, .i32]
  { cg with imports := cg.imports ++ [⟨"env", "memory", .memory 1⟩] }

/-- Steps 1-4 of `generate_wasm`: imports, all function declarations
(library, program-local, entry), and the function-name section. -/
def declare_phase (cg0 : CodeGenerator) (prog_name : String) (prog : Program) :
    CodeGenerator :=
  let cg := import_phase cg0 prog_name
  let cg := prog.functions.foldl declare_function cg
  let cg := prog.main_program.functions.foldl declare_function cg
  let cg := declare_function cg prog.main_program.main
  { cg with names := { cg.names with funcNames := some cg.fn_names } }

/-- Steps 6-8 of `generate_wasm`: the `main` export at `fn_map.len() - 1`,
the 16-aligned `heap_ptr` global and its export, and module assembly. -/
def finish (cg : CodeGenerator) : WasmModule :=
  let cg := { cg with exports :=
      cg.exports ++ [("main", ExportKind.func, cg.fn_map.length - 1)] }
  let heap_start := align_up cg.pool.cursor 16
  let cg := { cg with globals :=
      cg.globals ++ [GlobalEntry.mk true (i32ofU32 heap_start)] }
  let cg := { cg with exports :=
      cg.exports ++ [("heap_ptr", ExportKind.global, 0)] }
  assemble cg

/-- `generate_wasm` in staged form: declarations, three body-generation
passes (library, program-local, entry), finish. -/
theorem generate_wasm_eq (cg0 : CodeGenerator) (name : String) (prog : Program) :
    generate_wasm cg0 name prog =
      (gen_functions (declare_phase cg0 name prog) prog.functions >>= fun cg1 =>
       gen_functions cg1 prog.main_program.functions >>= fun cg2 =>
       gen_function cg2 prog.main_program.main >>= fun cg3 =>
       pure (finish cg3)) := rfl

/-- Decomposition of a successful `generate_wasm` run. -/
theorem generate_wasm_ok (cg0 : CodeGenerator) (name : String) (prog : Program)
    (m : WasmModule) (h : generate_wasm cg0 name prog = .ok m) :
    ∃ cg1 cg2 cg3,
      gen_functions (declare_phase cg0 name prog) prog.functions = .ok cg1 ∧
      gen_functions cg1 prog.main_program.functions = .ok cg2 ∧
      gen_function cg2 prog.main_program.main = .ok cg3 ∧
      m = finish cg3 := by
  rw [generate_wasm_eq] at h
  cases h1 : gen_functions (declare_phase cg0 name prog) prog.functions with
  | error e0 =>
      rw [h1] at h
      simp only [exceptErrBind] at h
      exact Except.noConfusion h
  | ok cg1 =>
      rw [h1] at h
      simp only [exceptOkBind] at h
      cases h2 : gen_functions cg1 prog.main_program.functions with
      | error e0 =>
          rw [h2] at h
          simp only [exceptErrBind] at h
          exact Except.noConfusion h
      | ok cg2 =>
          rw [h2] at h
          simp only [exceptOkBind] at h
          cases h3 : gen_function cg2 prog.main_program.main with
          | error e0 =>
              rw [h3] at h
              simp only [exceptErrBind] at h
              exact Except.noConfusion h
          | ok cg3 =>
              rw [h3] at h
              simp only [exceptOkBind, pure, Except.pure,
                Except.ok.injEq] at h
              exact ⟨cg1, cg2, cg3, rfl, h2, h3, h.symm⟩

/-- Fields of the generator state untouched by `declare_function`. -/
def DeclOnly (cg cg' : CodeGenerator) : Prop :=
  cg'.imports = cg.imports ∧ cg'.pool = cg.pool ∧ cg'.exports = cg.exports ∧
  cg'.globals = cg.globals ∧ cg'.types = cg.types ∧ cg'.code = cg.code ∧
  cg'.functions = cg.functions ∧ cg'.ty_void = cg.ty_void ∧
  cg'.names = cg.names

theorem DeclOnly_refl (cg : CodeGenerator) : DeclOnly cg cg := by
  simp [DeclOnly]

theorem DeclOnly_trans {a b c : CodeGenerator}
    (h1 : DeclOnly a b) (h2 : DeclOnly b c) : DeclOnly a c := by
  obtain ⟨i1, p1, e1, g1, t1, c1, f1, v1, n1⟩ := h1
  obtain ⟨i2, p2, e2, g2, t2, c2, f2, v2, n2⟩ := h2
  exact ⟨i2.trans i1, p2.trans p1, e2.trans e1, g2.trans g1, t2.trans t1,
    c2.trans c1, f2.trans f1, v2.trans v1, n2.trans n1⟩

theorem declare_function_declOnly (cg : CodeGenerator) (f : Function) :
    DeclOnly cg (declare_function cg f) := by
  simp [DeclOnly, declare_function]

/-- The declaration fold only touches the name/index bookkeeping. -/
theorem foldl_declare_declOnly (fs : List Function) :
    ∀ (cg : CodeGenerator), DeclOnly cg (fs.foldl declare_function cg) := by
  induction fs with
  | nil => intro cg; exact DeclOnly_refl cg
  | cons f rest ih =>
      intro cg
      simp only [List.foldl_cons]
      exact DeclOnly_trans (declare_function_declOnly cg f)
        (ih (declare_function cg f))

/-- The declaration fold advances `fn_idx` by one per function. -/
theorem foldl_declare_idx (fs : List Function) :
    ∀ (cg : CodeGenerator),
    (fs.foldl declare_function cg).fn_idx = cg.fn_idx + fs.length := by
  induction fs with
  | nil => intro cg; simp
  | cons f rest ih =>
      intro cg
      simp only [List.foldl_cons, List.length_cons]
      rw [ih (declare_function cg f)]
      have hx : (declare_function cg f).fn_idx = cg.fn_idx + 1 := rfl
      omega

/-- `import_phase` on a fresh generator, computed. -/
theorem import_phase_new (name : String) :
    import_phase CodeGenerator.new name =
      { types := [⟨[], []⟩, ⟨[.i32, .i32], []⟩, ⟨[.i32], [.i32, .i32]⟩,
          ⟨[.f64], [.i32, .i32]⟩, ⟨[.i32, .i32, .i32, .i32], [.i32, .i32]⟩]
        imports := [⟨"env", "log", .func 1⟩, ⟨"str", "to_str_i32", .func 2⟩,
          ⟨"str", "to_str_f64", .func 3⟩, ⟨"str", "concat", .func 4⟩,
          ⟨"env", "memory", .memory 1⟩]
        functions := []
        code := []
        pool := ⟨[], 0, []⟩
        exports := []
        names := { moduleName := some name, funcNames := none, localNames := [] }
        globals := []
        fn_names := [(0, "log"), (1, "to_str_i32"), (2, "to_str_f64"),
          (3, "concat")]
        fn_idx := 4
        fn_map := [("log", 0), ("to_str_i32", 1), ("to_str_f64", 2),
          ("concat", 3)]
        ty_void := 0 } := by
  rfl

/-- Sections of `declare_phase` on a fresh generator: the imports are the
fixed five-entry list; the data pool, exports and globals are empty. -/
theorem declare_phase_new (name : String) (prog : Program) :
    (declare_phase CodeGenerator.new name prog).imports =
      [⟨"env", "log", .func 1⟩, ⟨"str", "to_str_i32", .func 2⟩,
       ⟨"str", "to_str_f64", .func 3⟩, ⟨"str", "concat", .func 4⟩,
       ⟨"env", "memory", .memory 1⟩] ∧
    (declare_phase CodeGenerator.new name prog).pool = ⟨[], 0, []⟩ ∧
    (declare_phase CodeGenerator.new name prog).exports = [] ∧
    (declare_phase CodeGenerator.new name prog).globals = [] := by
  have hI := import_phase_new name
  have h1 := foldl_declare_declOnly prog.functions
    (import_phase CodeGenerator.new name)
  have h2 := foldl_declare_declOnly prog.main_program.functions
    (prog.functions.foldl declare_function (import_phase CodeGenerator.new name))
  have h3 := declare_function_declOnly
    (prog.main_program.functions.foldl declare_function
      (prog.functions.foldl declare_function (import_phase CodeGenerator.new name)))
    prog.main_program.main
  have hall := DeclOnly_trans h1 (DeclOnly_trans h2 h3)
  obtain ⟨hi, hp, he, hg, _⟩ := hall
  refine ⟨?_, ?_, ?_, ?_⟩
  · show (declare_function
        (prog.main_program.functions.foldl declare_function
          (prog.functions.foldl declare_function
            (import_phase CodeGenerator.new name)))
        prog.main_program.main).imports = _
    rw [hi, hI]
  · show (declare_function
        (prog.main_program.functions.foldl declare_function
          (prog.functions.foldl declare_function
            (import_phase CodeGenerator.new name)))
        prog.main_program.main).pool = _
    rw [hp, hI]
  · show (declare_function
        (prog.main_program.functions.foldl declare_function
          (prog.functions.foldl declare_function
            (import_phase CodeGenerator.new name)))
        prog.main_program.main).exports = _
    rw [he, hI]
  · show (declare_function
        (prog.main_program.functions.foldl declare_function
          (prog.functions.foldl declare_function
            (import_phase CodeGenerator.new name)))
        prog.main_program.main).globals = _
    rw [hg, hI]

deriving instance DecidableEq for Except

instance (n : Nat) : OfNat FloatBits n := inferInstanceAs (OfNat Int n)

/-- A program whose entry function has an empty body. -/
def progEmpty : Program :=
  Program.mk [] (MainProgram.mk [] [] (Function.mk "main" [] []))

/-- The module the generator produces for `progEmpty` under the name "t". -/
def modEmpty : WasmModule :=
  { types := [⟨[], []⟩, ⟨[.i32, .i32], []⟩, ⟨[.i32], [.i32, .i32]⟩,
      ⟨[.f64], [.i32, .i32]⟩, ⟨[.i32, .i32, .i32, .i32], [.i32, .i32]⟩]
    imports := [⟨"env", "log", .func 1⟩, ⟨"str", "to_str_i32", .func 2⟩,
      ⟨"str", "to_str_f64", .func 3⟩, ⟨"str", "concat", .func 4⟩,
      ⟨"env", "memory", .memory 1⟩]
    functions := [0]
    globals := [GlobalEntry.mk true 0]
    exports := [("main", ExportKind.func, 4), ("heap_ptr", ExportKind.global, 0)]
    code := [FuncBody.mk [] [Instr.«end»]]
    data := []
    names := { moduleName := some "t"
               funcNames := some [(0, "log"), (1, "to_str_i32"),
                 (2, "to_str_f64"), (3, "concat"), (4, "main")]
               localNames := [(4, [])] } }

/-- C1: false of the code (code bug).  Every module the generator produces
declares the imports `str.to_str_i32` (function index 2) and
`str.to_str_f64` (index 3), but `run_wasm_bytes` only registers
`env.memory`, `env.log`, `str.to_str` and `str.concat` with the linker, so
instantiation can never resolve all imports: the claim that the host
supplies a binding for each declared host import (and hence that the
exported entry function is reached) fails for every generated module. -/
theorem c1_host_import_unresolvable (name : String) (prog : Program)
    (m : WasmModule) (h : generate_wasm CodeGenerator.new name prog = .ok m) :
    ImportEntry.mk "str" "to_str_i32" (.func 2) ∈ m.imports ∧
    ImportEntry.mk "str" "to_str_f64" (.func 3) ∈ m.imports ∧
    ¬ import_resolves m := by
  obtain ⟨cg1, cg2, cg3, h1, h2, h3, hm⟩ := generate_wasm_ok _ _ _ _ h
  have p1 := gen_functions_pres prog.functions _ _ h1
  have p2 := gen_functions_pres prog.main_program.functions _ _ h2
  have p3 := gen_function_pres _ _ _ h3
  have himp : m.imports = (declare_phase CodeGenerator.new name prog).imports := by
    rw [hm]
    show cg3.imports = _
    rw [p3.1, p2.1, p1.1]
  rw [(declare_phase_new name prog).1] at himp
  refine ⟨by rw [himp]; simp, by rw [himp]; simp, ?_⟩
  intro hres
  have hmem := hres (ImportEntry.mk "str" "to_str_i32" (.func 2))
    (by rw [himp]; simp)
  simp [runner_host_defs] at hmem

/-- Witness for C1 at a concrete program (an empty entry function). -/
theorem c1_host_import_unresolvable_witness :
    ImportEntry.mk "str" "to_str_i32" (.func 2) ∈ modEmpty.imports ∧
    ImportEntry.mk "str" "to_str_f64" (.func 3) ∈ modEmpty.imports ∧
    ¬ import_resolves modEmpty :=
  c1_host_import_unresolvable "t" progEmpty modEmpty (by decide)

/-- A function value for contexts where only the variable table matters. -/
def fnEmpty : Function := Function.mk "main" [] []

/-- C2 counterexample: the node `1 + <float>` infers to F64, yet lowered
with an I32 target (as on the right-hand side of an assignment to an `int`
variable) both operands are lowered as I32 — the float literal is truncated
*before* the arithmetic — and the emitted arithmetic instruction is
`i32.add`, not the inferred type's `f64.add`; no conversion follows the
arithmetic.  This contradicts the claim that operands are always lowered at
the node's own inferred type with conversion only after the operation. -/
theorem c2_counterexample :
    infer_type (NumExpr.binary .add (.int 1) (.float 3)) = Ty.f64 ∧
    gen_expression_as (NumExpr.binary .add (.int 1) (.float 3)) Ty.i32 fnEmpty
      = .ok [Instr.i32Const 1, Instr.f64Const 3, Instr.i32TruncF64S,
             Instr.i32Add] ∧
    Instr.f64Add ∉ [Instr.i32Const 1, Instr.f64Const 3, Instr.i32TruncF64S,
             Instr.i32Add] := by
  decide

/-- C2 amended: for every binary node, *both operands are lowered as the
caller's requested target type* (not the node's inferred type), the typed
arithmetic instruction for the caller's target is emitted, and no
conversion is inserted after the arithmetic.  (When the caller's target is
the node's inferred type — as at statement top level through
`gen_expression` — this coincides with the claim.) -/
theorem c2_binary_lowering (op : BinOp) (l r : NumExpr) (t : Ty)
    (f : Function) (il ir : List Instr)
    (hl : gen_expression_as l t f = .ok il)
    (hr : gen_expression_as r t f = .ok ir) :
    gen_expression_as (.binary op l r) t f = .ok (il ++ ir ++ [bin_instr op t]) := by
  simp only [gen_expression_as, hl, hr, exceptOkBind]
  rfl

/-- Witness for the amended C2 at a concrete binary node. -/
theorem c2_binary_lowering_witness :
    gen_expression_as (.binary .add (.int 1) (.int 2)) Ty.i32 fnEmpty
      = .ok [Instr.i32Const 1, Instr.i32Const 2, Instr.i32Add] :=
  c2_binary_lowering .add (.int 1) (.int 2) Ty.i32 fnEmpty
    [Instr.i32Const 1] [Instr.i32Const 2] (by decide) (by decide)

/-- A program whose entry body is a single `print` with an empty list. -/
def progPrintNothing : Program :=
  Program.mk [] (MainProgram.mk [] []
    (Function.mk "main" [Stadment.print []] []))

/-- C3 counterexample: for a `print` with an empty argument list, the
generated entry body is `[call 0, end]` — function index 0 is the
`env.log` output import — so an output call *is* emitted, contradicting the
claim that the statement is a no-op. -/
theorem c3_counterexample :
    (generate_wasm CodeGenerator.new "c3" progPrintNothing).map entry_body
      = .ok [Instr.call 0, Instr.«end»] ∧
    (generate_wasm CodeGenerator.new "c3" progPrintNothing).map
        (fun m => m.imports.take 1)
      = .ok [ImportEntry.mk "env" "log" (.func 1)] := by
  decide

/-- C3 amended: a `print`/`println` with an empty list is *not* a no-op:
`gen_print` still emits the final `env.log` output call (and for `println`
additionally interns the newline and emits its (ptr, len) plus a `concat`
call), because the `call log` is outside the argument `match`. -/
theorem c3_empty_print_emits_log (cg : CodeGenerator) (f : Function)
    (li ci : Int) (hlog : lookupA cg.fn_map "log" = some li)
    (hcat : lookupA cg.fn_map "concat" = some ci) :
    gen_print cg [] f false = .ok ([Instr.call (u32ofI32 li)], cg) ∧
    gen_print cg [] f true =
      .ok (blob_consts (push_text cg.pool [10] 16).1 ++
            [Instr.call (u32ofI32 ci), Instr.call (u32ofI32 li)],
          { cg with pool := (push_text cg.pool [10] 16).2 }) := by
  constructor
  · simp [gen_print, gen_print_args, fn_map_index, hlog, exceptOkBind,
      pure, Except.pure]
  · cases hpt : push_text cg.pool [10] 16 with
    | mk nlb pool' =>
        simp [gen_print, gen_print_args, fn_map_index, hlog, hcat, hpt,
          exceptOkBind, pure, Except.pure]

/-- The generator state right after the four host imports are registered,
restricted to the name map (for the C3 witness). -/
def cgLogOnly : CodeGenerator :=
  { CodeGenerator.new with fn_map := [("log", 0), ("concat", 3)] }

/-- Witness for the amended C3 at a concrete generator state. -/
theorem c3_empty_print_emits_log_witness :
    gen_print cgLogOnly [] fnEmpty false = .ok ([Instr.call 0], cgLogOnly) ∧
    gen_print cgLogOnly [] fnEmpty true =
      .ok ([Instr.i32Const 0, Instr.i32Const 1, Instr.call 3, Instr.call 0],
        { cgLogOnly with
            pool := ⟨[Seg.mk 0 [10]], 1, [([10], Blob.mk 0 1)]⟩ }) :=
  c3_empty_print_emits_log cgLogOnly fnEmpty 0 3 (by decide) (by decide)

/-- C9: generation is deterministic — the generator is a pure function of
the program name and the `Program` value (its maps are only ever used
through keyed lookup and insert, never iterated), so two runs from fresh
`CodeGenerator` states on equal inputs produce equal module structures, and
byte serialization of equal structures is byte-identical. -/
theorem c9_deterministic (n1 n2 : String) (p1 p2 : Program)
    (hn : n1 = n2) (hp : p1 = p2) :
    generate_wasm CodeGenerator.new n1 p1 = generate_wasm CodeGenerator.new n2 p2 := by
  subst hn
  subst hp
  rfl

/-- Witness for C9 at a concrete program. -/
theorem c9_deterministic_witness :
    generate_wasm CodeGenerator.new "t" progEmpty
      = generate_wasm CodeGenerator.new "t" progEmpty :=
  c9_deterministic "t" "t" progEmpty progEmpty rfl rfl

/-- Inserting a binding makes it the one found by lookup. -/
theorem lookupB_insertB_self {β : Type} (m : List (Bytes × β)) (k : Bytes)
    (v : β) : lookupB (insertB m k v) k = some v := by
  induction m with
  | nil => simp [insertB, lookupB]
  | cons p rest ih =>
      obtain ⟨k', v'⟩ := p
      by_cases h : k' = k <;> simp [insertB, lookupB, h, ih]

/-- C6: `push_text` round-trip.  With the text already interned: (a) if the
existing placement satisfies the requested alignment (`align ≤ 1` or
`ptr % align = 0`) the identical `Blob` is returned and the pool state —
data segments included — is completely unchanged; (b) for a stricter
power-of-two alignment the existing placement does not satisfy (and absent
`u32` overflow), a second placement is allocated whose pointer is a multiple
of the requested alignment and distinct from the old pointer, the bytes are
re-emitted as one new data segment appended after all old ones (the first
placement's bytes remain in the data region), and the pool entry is replaced
by the new `Blob`. -/
theorem c6_push_text_roundtrip (st : PoolSt) (text : Bytes) (align : Nat)
    (blob : Blob) (hlook : lookupB st.interner text = some blob) :
    ((align ≤ 1 ∨ blob.ptr % align = 0) → push_text st text align = (blob, st)) ∧
    (∀ k, 1 ≤ k → k ≤ 32 → align = 2 ^ k → blob.ptr % align ≠ 0 →
      st.cursor + align ≤ 2 ^ 32 →
      (push_text st text align).1.ptr % align = 0 ∧
      (push_text st text align).1.ptr ≠ blob.ptr ∧
      (push_text st text align).1.len = text.length ∧
      (push_text st text align).2.data
        = st.data ++ [Seg.mk (push_text st text align).1.ptr text] ∧
      lookupB (push_text st text align).2.interner text
        = some (push_text st text align).1) := by
  constructor
  · intro hc
    simp [push_text, hlook, hc]
  · intro k hk1 hk hal hmod hov
    have hge2 : 2 ≤ align := by
      subst hal
      calc (2 : Nat) = 2 ^ 1 := by norm_num
      _ ≤ 2 ^ k := Nat.pow_le_pow_right (by norm_num) hk1
    have hcond : ¬ (align ≤ 1 ∨ blob.ptr % align = 0) := by
      push_neg
      exact ⟨by omega, hmod⟩
    have hmax : max align 1 = align := Nat.max_eq_left (by omega)
    have hau : align_up st.cursor align
        = 2 ^ k * ((st.cursor + (2 ^ k - 1)) / 2 ^ k) := by
      subst hal
      exact align_up_pow2 st.cursor k hk1 hk hov
    have hpt : push_text st text align =
        (⟨align_up st.cursor align, text.length⟩,
         { data := st.data ++ [Seg.mk (align_up st.cursor align) text]
           cursor := (align_up st.cursor align + text.length) % U32MOD
           interner := insertB st.interner text
             ⟨align_up st.cursor align, text.length⟩ }) := by
      simp [push_text, hlook, hcond, hmax]
    rw [hpt]
    dsimp only
    have hmul : align_up st.cursor align % align = 0 := by
      rw [hau, hal]
      simp [Nat.mul_mod_right]
    refine ⟨hmul, ?_, rfl, rfl, lookupB_insertB_self _ _ _⟩
    intro heq
    rw [heq] at hmul
    exact hmod hmul

/-- A pool state holding "q" at 0 and "a" at 1 (both interned at weak
alignment), cursor 2; the C6 witness re-interns "a". -/
def poolW : PoolSt :=
  ⟨[Seg.mk 0 [113], Seg.mk 1 [97]], 2,
   [([113], Blob.mk 0 1), ([97], Blob.mk 1 1)]⟩

/-- Witness for C6: re-interning "a" at alignment 1 returns the identical
blob and an unchanged pool; re-interning it at alignment 8 yields a
distinct, 8-aligned placement appended after the old data. -/
theorem c6_push_text_roundtrip_witness :
    push_text poolW [97] 1 = (Blob.mk 1 1, poolW) ∧
    ((push_text poolW [97] 8).1.ptr % 8 = 0 ∧
     (push_text poolW [97] 8).1.ptr ≠ (Blob.mk 1 1).ptr ∧
     (push_text poolW [97] 8).1.len = ([97] : Bytes).length ∧
     (push_text poolW [97] 8).2.data
       = poolW.data ++ [Seg.mk (push_text poolW [97] 8).1.ptr [97]] ∧
     lookupB (push_text poolW [97] 8).2.interner [97]
       = some (push_text poolW [97] 8).1) :=
  ⟨(c6_push_text_roundtrip poolW [97] 1 (Blob.mk 1 1) (by decide)).1
      (by decide),
   (c6_push_text_roundtrip poolW [97] 8 (Blob.mk 1 1) (by decide)).2 3
      (by decide) (by decide) (by decide) (by decide) (by decide)⟩

/-- C10: the host-side bump allocator keeps the heap pointer 16-aligned.
Starting from a 16-aligned cursor (the generator emits `align_up(data, 16)`
as the global's initial value) and absent `u32` overflow, every pointer
handed out by the allocator-backed host functions (`to_str`, `concat`) is
16-byte aligned, and the cursor is again a multiple of 16 after every
allocation, because each one advances it with `align_up(ptr + len, 16)`. -/
theorem c10_host_allocs_aligned (lens : List Nat) :
    ∀ (heap0 : Nat), heap0 % 16 = 0 →
    heap0 + (lens.map (fun l => l + 15)).sum < 2 ^ 32 →
    (∀ p ∈ (host_allocs heap0 lens).1, p % 16 = 0) ∧
    (host_allocs heap0 lens).2 % 16 = 0 := by
  induction lens with
  | nil =>
      intro heap0 h0 hb
      refine ⟨?_, by simpa [host_allocs] using h0⟩
      intro p hp
      simp [host_allocs] at hp
  | cons len rest ih =>
      intro heap0 h0 hb
      simp only [List.map_cons, List.sum_cons] at hb
      have hlt : heap0 + len < 2 ^ 32 := by omega
      have hmod : (heap0 + len) % U32MOD = heap0 + len := by
        apply Nat.mod_eq_of_lt
        simpa [U32MOD] using hlt
      have hxa : heap0 + len + 15 < 2 ^ 32 := by omega
      have hR : runner_align_up ((heap0 + len) % U32MOD) 16
          = align_up (heap0 + len) 16 := by
        rw [hmod, runner_align_up_16]
      have hAmod : align_up (heap0 + len) 16 % 16 = 0 :=
        align_up_16_mod (heap0 + len) hxa
      have hAle : align_up (heap0 + len) 16 ≤ heap0 + len + 15 :=
        align_up_16_le (heap0 + len) hxa
      have ih' := ih (align_up (heap0 + len) 16) hAmod (by omega)
      simp only [host_allocs, host_alloc]
      rw [hR]
      cases hh : host_allocs (align_up (heap0 + len) 16) rest with
      | mk ptrs heapF =>
          rw [hh] at ih'
          dsimp only at ih' ⊢
          refine ⟨?_, ih'.2⟩
          intro p hp
          simp only [List.mem_cons] at hp
          rcases hp with hp | hp
          · subst hp
            exact h0
          · exact ih'.1 p hp

/-- Witness for C10: from a 16-aligned heap start 48, allocations of 1 and
3 bytes hand out pointers 48 and 64 and leave the cursor at 80. -/
theorem c10_host_allocs_aligned_witness :
    (∀ p ∈ (host_allocs 48 [1, 3]).1, p % 16 = 0) ∧
    (host_allocs 48 [1, 3]).2 % 16 = 0 :=
  c10_host_allocs_aligned [1, 3] 48 (by decide) (by decide)

/-- C7: for every program the generator serializes (within the data-region
overflow budget), the exported mutable heap-pointer global's initial value
is the final data cursor rounded up to a multiple of 16 — hence a multiple
of 16, at least the cursor, and at least one past the last byte of every
placed string segment, so static string data and heap space never
overlap. -/
theorem c7_heap_global (name : String) (prog : Program) (m : WasmModule)
    (hb : prog_budget prog + 16 ≤ 2 ^ 32)
    (h : generate_wasm CodeGenerator.new name prog = .ok m) :
    ∃ c, m.globals = [GlobalEntry.mk true (i32ofU32 (align_up c 16))] ∧
      align_up c 16 % 16 = 0 ∧ c ≤ align_up c 16 ∧
      ∀ seg ∈ m.data, seg.ptr + seg.bytes.length ≤ align_up c 16 := by
  obtain ⟨cg1, cg2, cg3, h1, h2, h3, hm⟩ := generate_wasm_ok _ _ _ _ h
  have hd := declare_phase_new name prog
  have hpb : prog_budget prog = fns_budget prog.functions +
      fns_budget prog.main_program.functions +
      fn_budget prog.main_program.main := rfl
  have hinv0 : PoolInv (declare_phase CodeGenerator.new name prog).pool := by
    rw [hd.2.1]
    intro seg hs
    simp at hs
  have hcur0 : (declare_phase CodeGenerator.new name prog).pool.cursor = 0 := by
    rw [hd.2.1]
  have s1 := gen_functions_spec prog.functions _ cg1 h1 hinv0
    (by rw [hcur0]; omega)
  have s2 := gen_functions_spec prog.main_program.functions cg1 cg2 h2 s1.2.1
    (by have := s1.2.2.2; rw [hcur0] at this; omega)
  have s3 := gen_function_spec cg2 prog.main_program.main cg3 h3 s2.2.1
    (by have ha := s1.2.2.2; have hb2 := s2.2.2.2; rw [hcur0] at ha; omega)
  have hcur3 : cg3.pool.cursor ≤ prog_budget prog := by
    have ha := s1.2.2.2
    have hb2 := s2.2.2.2
    have hc := s3.2.2.2
    rw [hcur0] at ha
    omega
  have hx15 : cg3.pool.cursor + 15 < 2 ^ 32 := by omega
  have hglob : cg3.globals = [] := by
    have p1 := gen_functions_pres prog.functions _ _ h1
    have p2 := gen_functions_pres prog.main_program.functions _ _ h2
    have p3 := gen_function_pres _ _ _ h3
    rw [p3.2.2.2.2.2.2.1, p2.2.2.2.2.2.2.1, p1.2.2.2.2.2.2.1, hd.2.2.2]
  refine ⟨cg3.pool.cursor, ?_, align_up_16_mod _ hx15, le_align_up_16 _ hx15, ?_⟩
  · rw [hm]
    show cg3.globals ++ [GlobalEntry.mk true
      (i32ofU32 (align_up cg3.pool.cursor 16))] = _
    rw [hglob]
    rfl
  · intro seg hseg
    have hdata : m.data = cg3.pool.data := by rw [hm]; rfl
    rw [hdata] at hseg
    exact le_trans (s3.2.1 seg hseg) (le_align_up_16 _ hx15)

/-- Witness for C7 at a concrete program (empty entry function; cursor 0,
heap start 0). -/
theorem c7_heap_global_witness :
    ∃ c, modEmpty.globals = [GlobalEntry.mk true (i32ofU32 (align_up c 16))] ∧
      align_up c 16 % 16 = 0 ∧ c ≤ align_up c 16 ∧
      ∀ seg ∈ modEmpty.data, seg.ptr + seg.bytes.length ≤ align_up c 16 :=
  c7_heap_global "t" progEmpty modEmpty (by decide) (by decide)

/-- Keys of an association list. -/
def keysA {β : Type} (m : List (String × β)) : List String := m.map Prod.fst

theorem keysA_append {β : Type} (m1 m2 : List (String × β)) :
    keysA (m1 ++ m2) = keysA m1 ++ keysA m2 := by
  simp [keysA]

/-- Inserting a fresh key appends the binding. -/
theorem insertA_fresh {β : Type} (m : List (String × β)) (k : String) (v : β)
    (h : k ∉ keysA m) : insertA m k v = m ++ [(k, v)] := by
  induction m with
  | nil => simp [insertA]
  | cons p rest ih =>
      obtain ⟨k', v'⟩ := p
      simp only [keysA, List.map_cons, List.mem_cons] at h
      push_neg at h
      have hbe : (k' == k) = false := by
        simp only [beq_eq_false_iff_ne]
        exact fun he => h.1 he.symm
      simp [insertA, hbe, ih h.2]

/-- The declaration fold appends one map binding per function when all the
names involved are fresh. -/
theorem foldl_declare_fn_map_keys (fs : List Function) :
    ∀ (cg : CodeGenerator),
    (keysA cg.fn_map ++ fs.map Function.name).Nodup →
    keysA (fs.foldl declare_function cg).fn_map
      = keysA cg.fn_map ++ fs.map Function.name := by
  induction fs with
  | nil => intro cg h; simp
  | cons f rest ih =>
      intro cg h
      simp only [List.foldl_cons, List.map_cons]
      simp only [List.map_cons] at h
      have hsplit := List.nodup_append.mp (by
        rw [List.append_cons] at h
        exact h)
      have hfresh : f.name ∉ keysA cg.fn_map := by
        intro hmem
        exact (List.nodup_append.mp hsplit.1).2.2 hmem
          (List.mem_singleton.mpr rfl)
      have hmap : (declare_function cg f).fn_map
          = cg.fn_map ++ [(f.name, Int.ofNat cg.fn_idx)] :=
        insertA_fresh cg.fn_map f.name _ hfresh
      have hkeys : keysA (declare_function cg f).fn_map
          = keysA cg.fn_map ++ [f.name] := by
        rw [hmap, keysA_append]
        rfl
      rw [ih (declare_function cg f) (by
        rw [hkeys, List.append_assoc, List.singleton_append]
        exact h)]
      rw [hkeys, List.append_assoc, List.singleton_append]

/-- `fn_names` of the declaration fold keeps its tail appended. -/
theorem foldl_declare_fn_names (fs : List Function) :
    ∀ (cg : CodeGenerator), ∃ tail,
    (fs.foldl declare_function cg).fn_names = cg.fn_names ++ tail := by
  induction fs with
  | nil => intro cg; exact ⟨[], by simp⟩
  | cons f rest ih =>
      intro cg
      obtain ⟨tail, htail⟩ := ih (declare_function cg f)
      refine ⟨[(cg.fn_idx, f.name)] ++ tail, ?_⟩
      simp only [List.foldl_cons, htail]
      show (declare_function cg f).fn_names ++ tail = _
      rw [show (declare_function cg f).fn_names
        = cg.fn_names ++ [(cg.fn_idx, f.name)] from rfl]
      simp [List.append_assoc]

/-- A concrete program with a library function named `log`, colliding with
the imported host function's map entry. -/
def progDupLog : Program :=
  Program.mk [Function.mk "log" [] []]
    (MainProgram.mk [] [] (Function.mk "main" [] []))

/-- C5 counterexample: declaring a library function named "log" silently
overwrites the import's map entry instead of being rejected, generation
still succeeds, and the entry function — assigned function index 5 by
`declare_function` (the name section pairs index 5 with "main") — is
exported under "main" at index `fn_map.len() - 1 = 4`, which is a
*different* function (the library "log").  So neither is uniqueness
enforced nor does the export index always equal the declared index. -/
theorem c5_counterexample :
    (generate_wasm CodeGenerator.new "c5" progDupLog).map (fun m => m.exports)
      = .ok [("main", ExportKind.func, 4), ("heap_ptr", ExportKind.global, 0)] ∧
    (generate_wasm CodeGenerator.new "c5" progDupLog).map
        (fun m => m.names.funcNames)
      = .ok (some [(0, "log"), (1, "to_str_i32"), (2, "to_str_f64"),
        (3, "concat"), (4, "log"), (5, "main")]) := by
  decide

/-- C5 amended: *provided every function name is distinct from the others
and from the four imported names* ("log", "to_str_i32", "to_str_f64",
"concat"), the name-to-index map grows by exactly one entry per
declaration, and the index used in the "main" export —
`fn_map.len() - 1` — equals the function index `declare_function` assigned
to the entry function (4 imports + one per library and program-local
function), the same index the name section pairs with the entry's name.
Without that distinctness hypothesis the insert silently overwrites and the
export index is wrong (see the counterexample). -/
theorem c5_main_export_at_declared_index (name : String) (prog : Program)
    (m : WasmModule)
    (hnodup : (["log", "to_str_i32", "to_str_f64", "concat"] ++
        (prog.functions.map Function.name ++
          (prog.main_program.functions.map Function.name ++
            [prog.main_program.main.name]))).Nodup)
    (h : generate_wasm CodeGenerator.new name prog = .ok m) :
    ("main", ExportKind.func,
      4 + (prog.functions.length + prog.main_program.functions.length))
      ∈ m.exports ∧
    (4 + (prog.functions.length + prog.main_program.functions.length),
      prog.main_program.main.name) ∈ m.names.funcNames.getD [] := by
  obtain ⟨cg1, cg2, cg3, h1, h2, h3, hm⟩ := generate_wasm_ok _ _ _ _ h
  have p1 := gen_functions_pres prog.functions _ _ h1
  have p2 := gen_functions_pres prog.main_program.functions _ _ h2
  have p3 := gen_function_pres _ _ _ h3
  have hI := import_phase_new name
  have hbasekeys : keysA (import_phase CodeGenerator.new name).fn_map
      = ["log", "to_str_i32", "to_str_f64", "concat"] := by
    rw [hI]
    rfl
  -- keys after the two folds
  have hn1 : (keysA (import_phase CodeGenerator.new name).fn_map ++
      prog.functions.map Function.name).Nodup := by
    rw [hbasekeys]
    refine List.Nodup.sublist ?_ hnodup
    exact List.Sublist.append_left (List.sublist_append_left _ _) _
  have hk1 := foldl_declare_fn_map_keys prog.functions
    (import_phase CodeGenerator.new name) hn1
  have hn2 : (keysA ((prog.functions.foldl declare_function
      (import_phase CodeGenerator.new name))).fn_map ++
      prog.main_program.functions.map Function.name).Nodup := by
    rw [hk1, hbasekeys, List.append_assoc]
    refine List.Nodup.sublist ?_ hnodup
    refine List.Sublist.append_left ?_ _
    refine List.Sublist.append_left (List.sublist_append_left _ _) _
  have hk2 := foldl_declare_fn_map_keys prog.main_program.functions _ hn2
  -- the entry's name is fresh for the final insert
  have hmainfresh : prog.main_program.main.name ∉
      keysA ((prog.main_program.functions.foldl declare_function
        (prog.functions.foldl declare_function
          (import_phase CodeGenerator.new name)))).fn_map := by
    rw [hk2, hk1, hbasekeys]
    intro hmem
    have hre : (["log", "to_str_i32", "to_str_f64", "concat"] ++
        (prog.functions.map Function.name ++
          (prog.main_program.functions.map Function.name ++
            [prog.main_program.main.name]))) =
        ((["log", "to_str_i32", "to_str_f64", "concat"] ++
          prog.functions.map Function.name ++
          prog.main_program.functions.map Function.name) ++
          [prog.main_program.main.name]) := by
      simp [List.append_assoc]
    rw [hre] at hnodup
    have hsplit := List.nodup_append.mp hnodup
    exact hsplit.2.2 (by
      rw [List.append_assoc]
      exact hmem) (List.mem_singleton.mpr rfl)
  -- lengths and indices
  have hlen2 : ((prog.main_program.functions.foldl declare_function
      (prog.functions.foldl declare_function
        (import_phase CodeGenerator.new name)))).fn_map.length
      = 4 + (prog.functions.length + prog.main_program.functions.length) := by
    have := congrArg List.length hk2
    rw [hk1, hbasekeys] at this
    simp only [keysA, List.length_map, List.length_append] at this
    simp only [List.length_cons, List.length_nil] at this
    omega
  have hidx2 : ((prog.main_program.functions.foldl declare_function
      (prog.functions.foldl declare_function
        (import_phase CodeGenerator.new name)))).fn_idx
      = 4 + (prog.functions.length + prog.main_program.functions.length) := by
    rw [foldl_declare_idx, foldl_declare_idx]
    rw [show (import_phase CodeGenerator.new name).fn_idx = 4 from by rw [hI]]
    omega
  -- fn_map of the declaration phase
  have hmapC : (declare_phase CodeGenerator.new name prog).fn_map
      = ((prog.main_program.functions.foldl declare_function
          (prog.functions.foldl declare_function
            (import_phase CodeGenerator.new name)))).fn_map ++
        [(prog.main_program.main.name,
          Int.ofNat ((prog.main_program.functions.foldl declare_function
            (prog.functions.foldl declare_function
              (import_phase CodeGenerator.new name)))).fn_idx)] := by
    show insertA _ _ _ = _
    exact insertA_fresh _ _ _ hmainfresh
  have hlenC : (declare_phase CodeGenerator.new name prog).fn_map.length
      = 4 + (prog.functions.length + prog.main_program.functions.length) + 1 := by
    rw [hmapC]
    simp [hlen2]
  -- the name section pairs the entry with its declared index
  have hnamesC : (declare_phase CodeGenerator.new name prog).names.funcNames
      = some (((prog.main_program.functions.foldl declare_function
          (prog.functions.foldl declare_function
            (import_phase CodeGenerator.new name)))).fn_names ++
        [(((prog.main_program.functions.foldl declare_function
            (prog.functions.foldl declare_function
              (import_phase CodeGenerator.new name)))).fn_idx,
          prog.main_program.main.name)]) := rfl
  -- transport to cg3 and the finished module
  have hmap3 : cg3.fn_map = (declare_phase CodeGenerator.new name prog).fn_map := by
    rw [p3.2.2.1, p2.2.2.1, p1.2.2.1]
  have hexp3 : cg3.exports = [] := by
    rw [p3.2.2.2.2.2.1, p2.2.2.2.2.2.1, p1.2.2.2.2.2.1,
      (declare_phase_new name prog).2.2.1]
  have hfn3 : cg3.names.funcNames
      = (declare_phase CodeGenerator.new name prog).names.funcNames := by
    rw [p3.2.2.2.2.2.2.2.2, p2.2.2.2.2.2.2.2.2, p1.2.2.2.2.2.2.2.2]
  constructor
  · rw [hm]
    show ("main", ExportKind.func, _) ∈
      cg3.exports ++ [("main", ExportKind.func, cg3.fn_map.length - 1)] ++
        [("heap_ptr", ExportKind.global, 0)]
    rw [hexp3, hmap3, hlenC]
    simp
  · rw [hm]
    show _ ∈ (cg3.names.funcNames).getD []
    rw [hfn3, hnamesC]
    simp only [Option.getD_some]
    rw [hidx2]
    simp

/-- Witness for the amended C5 at a concrete program with distinct names. -/
theorem c5_main_export_at_declared_index_witness :
    ("main", ExportKind.func, 4) ∈ modEmpty.exports ∧
    (4, "main") ∈ modEmpty.names.funcNames.getD [] :=
  c5_main_export_at_declared_index "t" progEmpty modEmpty (by decide)
    (by decide)

/-- Every error the result can carry is a `generator` error. -/
def GenErrOnly {α : Type} (r : Except ParseError α) : Prop :=
  ∀ e, r = .error e → ∃ pos msg, e = .generator pos msg

theorem genErrOnly_ok {α : Type} (a : α) :
    GenErrOnly (Except.ok a : Except ParseError α) := by
  intro e he
  exact Except.noConfusion he

theorem genErrOnly_generator {α : Type} (pos : Position) (msg : String) :
    GenErrOnly (Except.error (.generator pos msg) : Except ParseError α) := by
  intro e he
  injection he with he
  exact ⟨pos, msg, he.symm⟩

theorem genErrOnly_bind {α β : Type} (r : Except ParseError α)
    (g : α → Except ParseError β) (hr : GenErrOnly r)
    (hg : ∀ a, r = .ok a → GenErrOnly (g a)) : GenErrOnly (r >>= g) := by
  intro e he
  cases r with
  | error e0 =>
      simp only [exceptErrBind] at he
      injection he with he
      subst he
      exact hr e0 rfl
  | ok a =>
      simp only [exceptOkBind] at he
      exact hg a rfl e he

/-- `gen_expression_as` raises only `generator` errors. -/
theorem gen_expression_as_err (expr : NumExpr) :
    ∀ (t : Ty) (f : Function), GenErrOnly (gen_expression_as expr t f) := by
  induction expr with
  | int i =>
      intro t f e he
      cases t <;> simp [gen_expression_as, pure, Except.pure] at he
  | float r =>
      intro t f e he
      cases t <;> simp [gen_expression_as, pure, Except.pure] at he
  | binary op l r ihl ihr =>
      intro t f
      simp only [gen_expression_as]
      refine genErrOnly_bind _ _ (ihl t f) ?_
      intro il _
      refine genErrOnly_bind _ _ (ihr t f) ?_
      intro ir _
      exact genErrOnly_ok _
  | var v pos =>
      intro t f e he
      simp only [gen_expression_as] at he
      cases hfi : find_variable_index f.vars v.name with
      | none =>
          rw [hfi] at he
          exact genErrOnly_generator pos _ e he
      | some idx =>
          rw [hfi] at he
          cases hv : v.ty <;> rw [hv] at he <;> cases t <;>
            simp [pure, Except.pure] at he
  | neg inner ih =>
      intro t f
      cases t with
      | f64 =>
          simp only [gen_expression_as]
          refine genErrOnly_bind _ _ (ih .f64 f) ?_
          intro a _
          exact genErrOnly_ok _
      | i32 =>
          simp only [gen_expression_as]
          refine genErrOnly_bind _ _ (ih .i32 f) ?_
          intro a _
          exact genErrOnly_ok _

/-- `gen_expression` raises only `generator` errors. -/
theorem gen_expression_err (expr : NumExpr) (f : Function) :
    GenErrOnly (gen_expression expr f) := by
  simp only [gen_expression]
  refine genErrOnly_bind _ _ (gen_expression_as_err expr _ f) ?_
  intro a _
  exact genErrOnly_ok _

/-- `gen_str_expression` raises only `generator` errors. -/
theorem gen_str_expression_err (cg : CodeGenerator) (e : StrExpr)
    (f : Function) : GenErrOnly (gen_str_expression cg e f) := by
  cases e with
  | str s =>
      cases hpt : push_text cg.pool s 16 with
      | mk blob pool' =>
          simp only [gen_str_expression, hpt]
          exact genErrOnly_ok _
  | nl =>
      cases hpt : push_text cg.pool [10] 16 with
      | mk blob pool' =>
          simp only [gen_str_expression, hpt]
          exact genErrOnly_ok _
  | numToStr inner =>
      simp only [gen_str_expression]
      refine genErrOnly_bind _ _ (gen_expression_err inner f) ?_
      intro a _
      obtain ⟨instrs, ty⟩ := a
      cases ty <;> exact genErrOnly_ok _

/-- The concat loop raises only `generator` errors. -/
theorem gen_print_rest_err (es : List StrExpr) :
    ∀ (cg : CodeGenerator) (f : Function),
    GenErrOnly (gen_print_rest cg es f) := by
  induction es with
  | nil =>
      intro cg f
      exact genErrOnly_ok _
  | cons e rest ih =>
      intro cg f
      simp only [gen_print_rest]
      refine genErrOnly_bind _ _ (gen_str_expression_err cg e f) ?_
      intro a _
      obtain ⟨bo, i1, cg1⟩ := a
      refine genErrOnly_bind _ _ (ih cg1 f) ?_
      intro b _
      obtain ⟨ir, cg2⟩ := b
      exact genErrOnly_ok _

/-- The argument-folding stage raises only `generator` errors. -/
theorem gen_print_args_err (cg : CodeGenerator) (l : List StrExpr)
    (f : Function) : GenErrOnly (gen_print_args cg l f) := by
  match l with
  | [] => exact genErrOnly_ok _
  | [only] =>
      simp only [gen_print_args]
      refine genErrOnly_bind _ _ (gen_str_expression_err cg only f) ?_
      intro a _
      obtain ⟨bo, i1, cg1⟩ := a
      exact genErrOnly_ok _
  | first :: second :: rest =>
      simp only [gen_print_args]
      refine genErrOnly_bind _ _ (gen_str_expression_err cg first f) ?_
      intro a _
      obtain ⟨bo, i1, cg1⟩ := a
      refine genErrOnly_bind _ _ (gen_print_rest_err (second :: rest) cg1 f) ?_
      intro b _
      obtain ⟨ir, cg2⟩ := b
      exact genErrOnly_ok _

/-- `gen_print` raises only `generator` errors. -/
theorem gen_print_err (cg : CodeGenerator) (l : List StrExpr) (f : Function)
    (nl : Bool) : GenErrOnly (gen_print cg l f nl) := by
  simp only [gen_print]
  refine genErrOnly_bind _ _ (gen_print_args_err cg l f) ?_
  intro a _
  obtain ⟨instrs0, cg0⟩ := a
  cases nl <;> exact genErrOnly_ok _

/-- `gen_stadment` raises only `generator` errors. -/
theorem gen_stadment_err (cg : CodeGenerator) (s : Stadment) (f : Function) :
    GenErrOnly (gen_stadment cg s f) := by
  cases s with
  | print l => exact gen_print_err cg l f false
  | println l => exact gen_print_err cg l f true
  | call name pos =>
      simp only [gen_stadment]
      cases hl : lookupA cg.fn_map name with
      | none => exact genErrOnly_generator pos _
      | some fid => exact genErrOnly_ok _
  | assignment v e pos =>
      simp only [gen_stadment]
      cases e with
      | num ne =>
          dsimp only
          refine genErrOnly_bind _ _ (gen_expression_as_err ne v.ty f) ?_
          intro il _
          cases hfi : find_variable_index f.vars v.name with
          | none => exact genErrOnly_generator pos _
          | some idx => exact genErrOnly_ok _
      | str se =>
          dsimp only
          refine genErrOnly_bind _ _ (genErrOnly_generator pos _) ?_
          intro il _
          cases hfi : find_variable_index f.vars v.name with
          | none => exact genErrOnly_generator pos _
          | some idx => exact genErrOnly_ok _

/-- `gen_body` raises only `generator` errors. -/
theorem gen_body_err (ss : List Stadment) :
    ∀ (cg : CodeGenerator) (f : Function), GenErrOnly (gen_body cg ss f) := by
  induction ss with
  | nil =>
      intro cg f
      exact genErrOnly_ok _
  | cons s rest ih =>
      intro cg f
      simp only [gen_body]
      refine genErrOnly_bind _ _ (gen_stadment_err cg s f) ?_
      intro a _
      obtain ⟨i1, cg1⟩ := a
      refine genErrOnly_bind _ _ (ih cg1 f) ?_
      intro b _
      obtain ⟨ir, cg2⟩ := b
      exact genErrOnly_ok _

/-- `gen_function` raises only `generator` errors. -/
theorem gen_function_err (cg : CodeGenerator) (f : Function) :
    GenErrOnly (gen_function cg f) := by
  simp only [gen_function, gen_variables]
  refine genErrOnly_bind _ _ (gen_body_err f.body _ f) ?_
  intro a _
  obtain ⟨instrs, cg3⟩ := a
  exact genErrOnly_ok _

/-- `gen_functions` raises only `generator` errors. -/
theorem gen_functions_err (fs : List Function) :
    ∀ (cg : CodeGenerator), GenErrOnly (gen_functions cg fs) := by
  induction fs with
  | nil =>
      intro cg
      exact genErrOnly_ok _
  | cons f rest ih =>
      intro cg
      simp only [gen_functions]
      refine genErrOnly_bind _ _ (gen_function_err cg f) ?_
      intro cg1 _
      exact ih cg1

/-- `generate_wasm` raises only `generator` errors. -/
theorem generate_wasm_err (cg0 : CodeGenerator) (name : String)
    (prog : Program) : GenErrOnly (generate_wasm cg0 name prog) := by
  rw [generate_wasm_eq]
  refine genErrOnly_bind _ _ (gen_functions_err prog.functions _) ?_
  intro cg1 _
  refine genErrOnly_bind _ _ (gen_functions_err prog.main_program.functions cg1) ?_
  intro cg2 _
  refine genErrOnly_bind _ _ (gen_function_err cg2 prog.main_program.main) ?_
  intro cg3 _
  exact genErrOnly_ok _

/-- C8: the generator's own failures.  (a) An unresolved variable reference
lowers to a `generator` error carrying the reference's source position and
a human-readable message; (b) an unresolved callee name likewise; (c) a
non-numeric assignment right-hand side likewise; and (d) every error
`generate_wasm` can return is of the `generator` class (position + message)
— the only error class the generator itself raises — and when it returns an
error it returns no module bytes. -/
theorem c8_generation_errors :
    (∀ (f : Function) (v : Variable) (pos : Position) (t : Ty),
        find_variable_index f.vars v.name = none →
        gen_expression_as (.var v pos) t f
          = .error (.generator pos s!"unknown variable \x27{v.name}\x27")) ∧
    (∀ (cg : CodeGenerator) (nm : String) (pos : Position) (f : Function),
        lookupA cg.fn_map nm = none →
        gen_stadment cg (.call nm pos) f
          = .error (.generator pos s!"unknown function \x27{nm}\x27")) ∧
    (∀ (cg : CodeGenerator) (v : Variable) (se : StrExpr) (pos : Position)
        (f : Function),
        gen_stadment cg (.assignment v (.str se) pos) f
          = .error (.generator pos
              "only numeric expressions are supported in assignments")) ∧
    (∀ (cg0 : CodeGenerator) (name : String) (prog : Program) (e : ParseError),
        generate_wasm cg0 name prog = .error e →
        (∃ pos msg, e = .generator pos msg) ∧
        ∀ bytes, generate_wasm cg0 name prog ≠ .ok bytes) := by
  refine ⟨?_, ?_, ?_, ?_⟩
  · intro f v pos t h
    cases t <;> simp [gen_expression_as, h]
  · intro cg nm pos f h
    simp [gen_stadment, h]
  · intro cg v se pos f
    simp [gen_stadment, exceptErrBind]
  · intro cg0 name prog e he
    refine ⟨generate_wasm_err cg0 name prog e he, ?_⟩
    intro bytes hb
    rw [he] at hb
    exact Except.noConfusion hb

/-- A source position for the C8 witness. -/
def posW : Position := Position.mk "main.mpl" 3 7

/-- A program whose entry calls an undeclared function. -/
def progBadCall : Program :=
  Program.mk [] (MainProgram.mk [] []
    (Function.mk "main" [Stadment.call "nope" posW] []))

/-- Witness for C8 at concrete inputs: the three error shapes at concrete
statements, and a program whose generation returns (only) a `generator`
error and no module. -/
theorem c8_generation_errors_witness :
    gen_expression_as (.var (Variable.mk "x" Ty.i32) posW) Ty.i32 fnEmpty
      = .error (.generator posW "unknown variable \x27x\x27") ∧
    gen_stadment cgLogOnly (.call "nope" posW) fnEmpty
      = .error (.generator posW "unknown function \x27nope\x27") ∧
    gen_stadment cgLogOnly
        (.assignment (Variable.mk "x" Ty.i32) (.str (.str [97])) posW) fnEmpty
      = .error (.generator posW
          "only numeric expressions are supported in assignments") ∧
    ((∃ pos msg, (ParseError.generator posW "unknown function \x27nope\x27")
        = .generator pos msg) ∧
      ∀ bytes, generate_wasm CodeGenerator.new "b" progBadCall ≠ .ok bytes) :=
  ⟨c8_generation_errors.1 fnEmpty (Variable.mk "x" Ty.i32) posW Ty.i32
      (by decide),
   c8_generation_errors.2.1 cgLogOnly "nope" posW fnEmpty (by decide),
   c8_generation_errors.2.2.1 cgLogOnly (Variable.mk "x" Ty.i32) (.str [97])
      posW fnEmpty,
   c8_generation_errors.2.2.2 CodeGenerator.new "b" progBadCall
      (ParseError.generator posW "unknown function \x27nope\x27") (by decide)⟩

/-- The program `print("a", "b"); println("a", "b")` (Scenario C). -/
def progPrintAB : Program :=
  Program.mk [] (MainProgram.mk [] []
    (Function.mk "main"
      [Stadment.print [StrExpr.str [97], StrExpr.str [98]],
       Stadment.println [StrExpr.str [97], StrExpr.str [98]]]
      []))

/-- The module the generator produces for `progPrintAB` under the name
"c4": "a" at 0, "b" at 16, "\n" at 32, heap start 48, and a `main` body
that concatenates and logs twice. -/
def modC4 : WasmModule :=
  { types := [⟨[], []⟩, ⟨[.i32, .i32], []⟩, ⟨[.i32], [.i32, .i32]⟩,
      ⟨[.f64], [.i32, .i32]⟩, ⟨[.i32, .i32, .i32, .i32], [.i32, .i32]⟩]
    imports := [⟨"env", "log", .func 1⟩, ⟨"str", "to_str_i32", .func 2⟩,
      ⟨"str", "to_str_f64", .func 3⟩, ⟨"str", "concat", .func 4⟩,
      ⟨"env", "memory", .memory 1⟩]
    functions := [0]
    globals := [GlobalEntry.mk true 48]
    exports := [("main", ExportKind.func, 4), ("heap_ptr", ExportKind.global, 0)]
    code := [FuncBody.mk []
      [Instr.i32Const 0, Instr.i32Const 1, Instr.i32Const 16, Instr.i32Const 1,
       Instr.call 3, Instr.call 0,
       Instr.i32Const 0, Instr.i32Const 1, Instr.i32Const 16, Instr.i32Const 1,
       Instr.call 3, Instr.i32Const 32, Instr.i32Const 1, Instr.call 3,
       Instr.call 0, Instr.«end»]]
    data := [Seg.mk 0 [97], Seg.mk 16 [98], Seg.mk 32 [10]]
    names := { moduleName := some "c4"
               funcNames := some [(0, "log"), (1, "to_str_i32"),
                 (2, "to_str_f64"), (3, "concat"), (4, "main")]
               localNames := [(4, [])] } }

/-- C4: false of the code (code bug).  Running the generated body of
`print("a","b"); println("a","b")` against the host closures of
`run_wasm_bytes` (binding `env.log` and `str.concat` at the generator's
assigned indices) writes `ab` + newline for the *first* statement and
`ab` + newline + newline for the second: `env.log` prints the guest bytes
with `println!`, which appends one extra newline to every output call, so
the second statement's output ends in two newlines, not exactly one, and
the host writes more than the `len` bytes read from guest memory.
(Independently, the real `run_wasm_bytes` never reaches this point because
instantiation fails on the unresolved `to_str` imports — see C1.) -/
theorem c4_host_output_extra_newline :
    generate_wasm CodeGenerator.new "c4" progPrintAB = .ok modC4 ∧
    (exec_instrs (entry_body modC4) (init_exec modC4 0)).map ExecSt.out
      = some ([97, 98, 10] ++ ([97, 98] ++ [10, 10])) ∧
    ([97, 98] ++ [10, 10] : List Nat) ≠ [97, 98] ++ [10] := by
  refine ⟨by decide, by decide, by decide⟩
